import Mathlib

/-!
# The DeepL client of `deepl.go`

A shallow embedding of the package `deepl` (`New`, `Translate`, `GetGlossaries`,
`CreateGlossary`) together with the parts of the Go standard library the package
calls: `strings.HasSuffix`, `strings.ReplaceAll`, `io.Copy`, `http.NewRequest`,
`http.Client.Do`, `json.Marshal` and `json.Decoder.Decode`.

Modelling conventions

* A Go `string` is a sequence of bytes (`GoString`). The strings handed to
  `json.Marshal` (the arguments of `Translate` and `CreateGlossary`) and the content of
  the entries stream are such sequences, well-formed UTF-8 or not.
* Text that is well-formed UTF-8 is held as the list of its code points (`Str`): the
  JSON text `json.Marshal` writes, the strings the JSON decoder delivers, the strings the
  package only compares, joins and passes on (`baseURL`, `apiKey`, URLs, header values,
  the status line), and the response bodies the decoder reads, which are taken to be
  well-formed UTF-8. `utf8` gives the bytes of such a text and `runes` the code points of
  a byte sequence, U+FFFD standing for each byte outside a well-formed sequence.
* A Go slice is `Option (List α)`: `none` is the nil slice, `some []` the empty
  non-nil slice.
* A Go `int` is a 64-bit signed integer, held in an `Int`.
* A Go function returning `(T, error)` returns a value and an `Option Error`
  (`none` is the nil error); a run-time panic is a separate outcome.
* The network is a parameter (`Env`): the URL syntax check of `http.NewRequest`
  and the answer of `http.Client.Do` to each request.
-/

namespace DeepL

/-! ## Strings, slices and errors -/

/-- A text that is well-formed UTF-8, as the sequence of its code points. -/
abbrev Str := List Char

/-- A byte. -/
abbrev Byte := Fin 256

/-- Go `string`: a sequence of bytes, which need not be well-formed UTF-8. -/
abbrev GoString := List Byte

/-- Go slice: `none` is the nil slice. -/
abbrev Slice (α : Type) := Option (List α)

/-- Go `error` values that the package can return. -/
inductive Error
  | errorf (msg : String)
  | url (msg : String)
  | transport (msg : String)
  | read (msg : String)
  | jsonSyntax
  | jsonEOF
  | jsonUnexpectedEOF
  | jsonUnmarshalType
deriving DecidableEq, Repr

/-- The double quote character. -/
def dquote : Char := Char.ofNat 0x22

/-- The backslash character. -/
def bslash : Char := Char.ofNat 0x5c

/-- Go `strings.HasSuffix`:
`len(s) >= len(suffix) && s[len(s)-len(suffix):] == suffix`. -/
def HasSuffix (s suffix : Str) : Bool :=
  decide (s.length ≥ suffix.length) && decide (s.drop (s.length - suffix.length) = suffix)

/-- Go's conversion `byte(n)`: the low eight bits. -/
def byte (n : Nat) : Byte :=
  ⟨n % 256, Nat.mod_lt n (by decide)⟩

/-- Go's `utf8.RuneError`, U+FFFD. -/
def RuneError : Nat := 0xfffd

/-- Go's `utf8.AppendRune` on a code point: its UTF-8 encoding, of one to four bytes. -/
def EncodeRune (c : Char) : GoString :=
  let r := c.toNat
  if r < 0x80 then [byte r]
  else if r < 0x800 then [byte (0xc0 + r / 64), byte (0x80 + r % 64)]
  else if r < 0x10000 then
    [byte (0xe0 + r / 4096), byte (0x80 + r / 64 % 64), byte (0x80 + r % 64)]
  else
    [byte (0xf0 + r / 262144), byte (0x80 + r / 4096 % 64), byte (0x80 + r / 64 % 64),
     byte (0x80 + r % 64)]

/-- The bytes of a well-formed text: a Go string literal, or Go's `string(runes)`. -/
def utf8 (s : Str) : GoString :=
  s.flatMap EncodeRune

/-- The width Go's table `first` gives for a first byte from `0xC2` to `0xF4`. -/
def runeWidth (s0 : Nat) : Nat :=
  if s0 < 0xe0 then 2 else if s0 < 0xf0 then 3 else 4

/-- The least second byte Go's `acceptRanges` accepts after the first byte `s0`. -/
def acceptLo (s0 : Nat) : Nat :=
  if s0 = 0xe0 then 0xa0 else if s0 = 0xf0 then 0x90 else 0x80

/-- The greatest second byte Go's `acceptRanges` accepts after the first byte `s0`. -/
def acceptHi (s0 : Nat) : Nat :=
  if s0 = 0xed then 0x9f else if s0 = 0xf4 then 0x8f else 0xbf

/-- Go's `utf8.DecodeRuneInString`: the first code point of `s` and its width in bytes;
`(RuneError, 1)` when `s` starts with a byte that begins no well-formed sequence, and
`(RuneError, 0)` for the empty string. Go's table `first` is spelled out by ranges of the
first byte: ASCII below `0x80`, invalid below `0xC2` and above `0xF4`, and otherwise the
width of the sequence and the accepted range of the second byte; masks and shifts are
written as remainders and products. -/
def DecodeRuneInString (s : GoString) : Nat × Nat :=
  match s with
  | [] => (RuneError, 0)
  | b0 :: _ =>
    let s0 := b0.val
    let s1 := (s.getD 1 0).val
    let s2 := (s.getD 2 0).val
    let s3 := (s.getD 3 0).val
    if s0 < 0x80 then (s0, 1)
    else if s0 < 0xc2 ∨ 0xf4 < s0 then (RuneError, 1)
    else if s.length < runeWidth s0 then (RuneError, 1)
    else if s1 < acceptLo s0 ∨ acceptHi s0 < s1 then (RuneError, 1)
    else if runeWidth s0 ≤ 2 then (s0 % 32 * 64 + s1 % 64, 2)
    else if s2 < 0x80 ∨ 0xbf < s2 then (RuneError, 1)
    else if runeWidth s0 ≤ 3 then (s0 % 16 * 4096 + s1 % 64 * 64 + s2 % 64, 3)
    else if s3 < 0x80 ∨ 0xbf < s3 then (RuneError, 1)
    else (s0 % 8 * 262144 + s1 % 64 * 4096 + s2 % 64 * 64 + s3 % 64, 4)

/-- Go's conversion `[]rune(s)`, from a position `skip` bytes before the start of the
next code point (Go's loop adds the width of each code point to its index): the code
points of `s`, with U+FFFD for every byte that is not part of a well-formed sequence. -/
def runesFrom : Nat → GoString → Str
  | _, [] => []
  | skip + 1, _ :: rest => runesFrom skip rest
  | 0, b :: rest =>
    Char.ofNat (DecodeRuneInString (b :: rest)).1 ::
      runesFrom ((DecodeRuneInString (b :: rest)).2 - 1) rest

/-- Go's conversion `[]rune(s)`. -/
def runes (s : GoString) : Str :=
  runesFrom 0 s

/-- Go's `utf8.RuneCountInString`: the number of code points, every byte that is not part
of a well-formed sequence counting as one. -/
def RuneCountInString (s : GoString) : Nat :=
  (runes s).length

/-- Go `strings.Index`: the index of the first instance of `substr` in `s`,
`none` for Go's `-1`. -/
def Index : GoString → GoString → Option Nat
  | [], substr => if substr = [] then some 0 else none
  | c :: s, substr =>
    if substr.isPrefixOf (c :: s) then some 0
    else (Index s substr).map (· + 1)

/-- The loop of Go `strings.Count` for a non-empty `substr`:
`i := Index(s, substr); if i == -1 return n; n++; s = s[i+len(substr):]`.
Every round removes at least one byte, so `fuel = len(s) + 1` rounds suffice. -/
def countLoop (substr : GoString) : Nat → GoString → Nat → Nat
  | 0, _, n => n
  | fuel + 1, s, n =>
    match Index s substr with
    | none => n
    | some i => countLoop substr fuel (s.drop (i + substr.length)) (n + 1)

/-- Go `strings.Count`: the number of non-overlapping instances of `substr` in `s`;
for the empty `substr`, one more than the number of code points. -/
def Count (s substr : GoString) : Nat :=
  if substr = [] then RuneCountInString s + 1
  else countLoop substr (s.length + 1) s 0

/-- The replacement loop of Go `strings.Replace`, at round `i` of `n` remaining rounds,
on `s[start:]`:
`j := start; if len(old) == 0 { if i > 0 { j += width of first rune } } else { j += Index(s[start:], old) }`,
`b.WriteString(s[start:j]); b.WriteString(new); start = j + len(old)`,
and after the last round `b.WriteString(s[start:])`. -/
def replaceLoop (old new : GoString) : Nat → Bool → GoString → GoString
  | 0, _, s => s
  | n + 1, first, s =>
    let j : Nat :=
      if old = [] then (if first then 0 else (DecodeRuneInString s).2)
      else (Index s old).getD 0
    s.take j ++ new ++ replaceLoop old new n false (s.drop (j + old.length))

/-- Go `strings.Replace(s, old, new, n)`; a negative `n` puts no limit on the number
of replacements. -/
def Replace (s old new : GoString) (n : Int) : GoString :=
  if old = new ∨ n = 0 then s
  else
    let m := Count s old
    if m = 0 then s
    else
      let k : Nat := if n < 0 ∨ (m : Int) < n then m else n.toNat
      replaceLoop old new k true s

/-- Go `strings.ReplaceAll(s, old, new)`, which is `Replace(s, old, new, -1)`. -/
def ReplaceAll (s old new : GoString) : GoString :=
  Replace s old new (-1)

/-! ## The client and its constructor -/

/-- The struct `Deepl`. -/
structure Deepl where
  baseURL : Str
  apiKey : Str
deriving DecidableEq, Repr

/-- The function `New`: `nil` and an error for an empty `baseURL` and for one that has
the suffix `/`, otherwise a client holding both arguments. -/
def New (baseURL apiKey : Str) : Option Deepl × Option Error :=
  if baseURL = [] then
    (none, some (Error.errorf "baseURL is required"))
  else if HasSuffix baseURL "/".toList then
    (none, some (Error.errorf "baseURL must not end with a slash"))
  else
    (some { apiKey := apiKey, baseURL := baseURL }, none)

/-! ## `encoding/json`: encoding -/

/-- The digits of Go's `hex = "0123456789abcdef"`. -/
def hexDigit (n : Nat) : Char :=
  "0123456789abcdef".toList.getD n '0'

/-- Go's table `htmlSafeSet`: the ASCII characters `json.Marshal` copies unescaped,
which are those from the space to DEL except the double quote, `&`, `<`, `>` and the backslash. -/
def htmlSafeSet (c : Char) : Bool :=
  decide (0x20 ≤ c.toNat) && decide (c.toNat < 0x80) &&
    !(c == dquote || c == '&' || c == '<' || c == '>' || c == bslash)

/-- What Go's `appendString` (with `escapeHTML` set, as `json.Marshal` sets it) writes
for one code point: safe ASCII is copied; the double quote and backslash get a backslash;
`\b \f \n \r \t` get their short escapes (Go 1.22 and later; earlier releases write
`\u0008` and `\u000c` for the first two); other ASCII becomes `\u00XX`; U+2028 and U+2029
become the escapes `u2028` and `u2029` after a backslash; every other code point is
copied. -/
def appendRune (c : Char) : Str :=
  if c.toNat < 0x80 then
    if htmlSafeSet c then [c]
    else if c = bslash ∨ c = dquote then [bslash, c]
    else if c = Char.ofNat 0x08 then [bslash, 'b']
    else if c = Char.ofNat 0x0c then [bslash, 'f']
    else if c = '\n' then [bslash, 'n']
    else if c = '\r' then [bslash, 'r']
    else if c = '\t' then [bslash, 't']
    else [bslash, 'u', '0', '0', hexDigit (c.toNat / 16), hexDigit (c.toNat % 16)]
  else if c = Char.ofNat 0x2028 ∨ c = Char.ofNat 0x2029 then
    [bslash, 'u', '2', '0', '2', hexDigit (c.toNat % 16)]
  else [c]

/-- The loop of Go's `appendString` (with `escapeHTML` set), from a position `skip` bytes
before the start of the next code point (Go's loop adds the width of each code point to its
index). An ASCII byte is written as `appendRune` says. At any other byte Go calls
`utf8.DecodeRuneInString`: when that returns `RuneError` and the width 1, the byte is part
of no well-formed UTF-8 sequence and the escape `ufffd` after a backslash is written for it;
otherwise the code point is written as `appendRune` says, and its bytes are stepped over. -/
def appendStringFrom : Nat → GoString → Str
  | _, [] => []
  | skip + 1, _ :: rest => appendStringFrom skip rest
  | 0, b :: rest =>
    if b.val < 0x80 then appendRune (Char.ofNat b.val) ++ appendStringFrom 0 rest
    else if DecodeRuneInString (b :: rest) = (RuneError, 1) then
      [bslash, 'u', 'f', 'f', 'f', 'd'] ++ appendStringFrom 0 rest
    else
      appendRune (Char.ofNat (DecodeRuneInString (b :: rest)).1) ++
        appendStringFrom ((DecodeRuneInString (b :: rest)).2 - 1) rest

/-- Go's `appendString`: the JSON string literal for the Go string `s`. -/
def appendString (s : GoString) : Str :=
  dquote :: (appendStringFrom 0 s ++ [dquote])

/-- Go's slice encoder at element type `string`: `null` for the nil slice, otherwise
`[`, the elements separated by `,`, and `]`. -/
def encodeStringSlice : Slice GoString → Str
  | none => "null".toList
  | some xs => '[' :: ((",".toList).intercalate (xs.map appendString) ++ [']'])

/-- Go's struct encoder: `\x7b`, then for each field in declaration order its quoted JSON
name, `:` and its encoded value, separated by `,`, then `\x7d`. -/
def encodeStruct (fields : List (Str × Str)) : Str :=
  '{' :: ((",".toList).intercalate
    (fields.map fun f => appendString (utf8 f.1) ++ ':' :: f.2) ++ ['}'])

/-! ## `encoding/json`: the scanner

`json.Decoder.Decode` first runs the scanner of `scanner.go` over the input, one
character at a time, until the first JSON value is complete (`readValue`). The states
below are the step functions of that scanner; the parse stack carries, in addition,
the parts of the value read so far. -/

/-- A JSON value as the decoder reads it: numbers keep their literal text, strings are
unquoted. -/
inductive JSON
  | null
  | bool (b : Bool)
  | number (lit : Str)
  | string (s : Str)
  | array (elems : List JSON)
  | object (members : List (Str × JSON))

/-- An entry of the scanner's parse stack: an object under construction (Go's
`parseObjectKey` and `parseObjectValue`; `key` is the key read last, while its value is
not complete) or an array under construction (`parseArrayValue`). -/
inductive Frame
  | object (members : List (Str × JSON)) (key : Option Str)
  | array (elems : List JSON)

/-- The step functions of the scanner (`stateBeginValue`, `stateInString`, `state1`, ...).
String states carry the raw characters read since the opening quote, number states the
literal read so far, `literal` the characters still expected of `true`, `false` or
`null`, and `endTop` the complete top-level value. -/
inductive Step
  | beginValueOrEmpty
  | beginValue
  | beginStringOrEmpty
  | beginString
  | endValue
  | endTop (v : JSON)
  | inString (raw : Str)
  | inStringEsc (raw : Str)
  | inStringEscU (raw : Str) (n : Nat)
  | neg (lit : Str)
  | s1 (lit : Str)
  | s0 (lit : Str)
  | dot (lit : Str)
  | dot0 (lit : Str)
  | e (lit : Str)
  | eSign (lit : Str)
  | e0 (lit : Str)
  | literal (rest : Str) (v : JSON)
  | error

/-- The scanner: its step function and its parse stack. -/
structure Scanner where
  step : Step
  parseState : List Frame

/-- Go's `maxNestingDepth`. -/
def maxNestingDepth : Nat := 10000

/-- Go's `isSpace`. -/
def isSpace (c : Char) : Bool :=
  c == ' ' || c == '\t' || c == '\r' || c == '\n'

/-- Decimal digits. -/
def isDigit (c : Char) : Bool :=
  decide ('0' ≤ c) && decide (c ≤ '9')

/-- The value of a hexadecimal digit, as in Go's `getu4`. -/
def hexVal (c : Char) : Option Nat :=
  if '0' ≤ c ∧ c ≤ '9' then some (c.toNat - '0'.toNat)
  else if 'a' ≤ c ∧ c ≤ 'f' then some (c.toNat - 'a'.toNat + 10)
  else if 'A' ≤ c ∧ c ≤ 'F' then some (c.toNat - 'A'.toNat + 10)
  else none

/-- Go's `getu4` on the four characters after a backslash and `u`. -/
def getu4 (a b c d : Char) : Option Nat :=
  match hexVal a, hexVal b, hexVal c, hexVal d with
  | some x, some y, some z, some w => some (((x * 16 + y) * 16 + z) * 16 + w)
  | _, _, _, _ => none

/-- Go's `utf16.IsSurrogate`. -/
def isSurrogate (r : Nat) : Bool :=
  decide (0xd800 ≤ r) && decide (r < 0xe000)

/-- Go's `utf16.DecodeRune`: the code point of a valid surrogate pair. -/
def decodeSurrogates (r1 r2 : Nat) : Option Char :=
  if 0xd800 ≤ r1 ∧ r1 < 0xdc00 ∧ 0xdc00 ≤ r2 ∧ r2 < 0xe000 then
    some (Char.ofNat ((r1 - 0xd800) * 1024 + (r2 - 0xdc00) + 0x10000))
  else none

/-- The second escape of a surrogate pair, if the text goes on with a backslash, `u`
and four hexadecimal digits: its value and the text after it. -/
def nextU4 : Str → Option (Nat × Str)
  | b :: u :: e :: f :: g :: h :: rest =>
    if b = bslash ∧ u = 'u' then (getu4 e f g h).map fun r => (r, rest) else none
  | _ => none

/-- One round of the loop of Go's `unquoteBytes`, on the text `c :: rest` between the
quotes of a string literal: the code point the text starts with and the text after it.
An escape is replaced by what it stands for, a surrogate pair of two `u` escapes by its
code point and a surrogate outside a pair by U+FFFD; a raw double quote or control
character, or a wrong escape, is a failure. -/
def unquoteRune (c : Char) (rest : Str) : Option (Char × Str) :=
  if c = bslash then
    match rest with
    | [] => none
    | x :: rest1 =>
      if x = dquote ∨ x = bslash ∨ x = '/' ∨ x = Char.ofNat 0x27 then some (x, rest1)
      else if x = 'b' then some (Char.ofNat 0x08, rest1)
      else if x = 'f' then some (Char.ofNat 0x0c, rest1)
      else if x = 'n' then some ('\n', rest1)
      else if x = 'r' then some ('\r', rest1)
      else if x = 't' then some ('\t', rest1)
      else if x = 'u' then
        match rest1 with
        | e :: f :: g :: h :: rest2 =>
          match getu4 e f g h with
          | none => none
          | some rr =>
            if isSurrogate rr then
              match (nextU4 rest2).bind fun p => (decodeSurrogates rr p.1).map fun ch => (ch, p.2) with
              | some pair => some pair
              | none => some (Char.ofNat 0xfffd, rest2)
            else some (Char.ofNat rr, rest2)
        | _ => none
      else none
  else if c = dquote ∨ c.toNat < 0x20 then none
  else some (c, rest)

/-- The loop of Go's `unquoteBytes`. Every round takes at least one character, so a fuel
of the length of the text suffices. -/
def unquoteLoop : Nat → Str → Option Str
  | _, [] => some []
  | 0, _ :: _ => none
  | fuel + 1, c :: rest =>
    match unquoteRune c rest with
    | none => none
    | some (ch, rest1) => (unquoteLoop fuel rest1).map (ch :: ·)

/-- Go's `unquote`, on the characters between the quotes. -/
def unquote (raw : Str) : Option Str :=
  unquoteLoop raw.length raw

/-- The scanner in Go's `stateError`. -/
def scanError : Scanner :=
  { step := Step.error, parseState := [] }

/-- A value is complete: at top level the scan ends; inside an array the value is the
next element; inside an object it is the key (a string) or the value of the key read
last. The scanner goes on in `stateEndValue`. -/
def endOfValue (v : JSON) : List Frame → Scanner
  | [] => { step := Step.endTop v, parseState := [] }
  | Frame.array elems :: ps =>
    { step := Step.endValue, parseState := Frame.array (elems ++ [v]) :: ps }
  | Frame.object ms (some k) :: ps =>
    { step := Step.endValue, parseState := Frame.object (ms ++ [(k, v)]) none :: ps }
  | Frame.object ms none :: ps =>
    match v with
    | JSON.string k => { step := Step.endValue, parseState := Frame.object ms (some k) :: ps }
    | _ => scanError

/-- Go's `stateEndValue` below top level: after a key comes `:`, after a member `,` or
the closing brace, after an element `,` or `]`; space is skipped. -/
def stateEndValue (ps : List Frame) (c : Char) : Scanner :=
  match ps with
  | [] => scanError
  | f :: rest =>
    if isSpace c then { step := Step.endValue, parseState := ps }
    else
      match f with
      | Frame.object _ (some _) =>
        if c = ':' then { step := Step.beginValue, parseState := ps } else scanError
      | Frame.object ms none =>
        if c = ',' then { step := Step.beginString, parseState := ps }
        else if c = '}' then endOfValue (JSON.object ms) rest
        else scanError
      | Frame.array elems =>
        if c = ',' then { step := Step.beginValue, parseState := ps }
        else if c = ']' then endOfValue (JSON.array elems) rest
        else scanError

/-- Go's `pushParseState`: a container deeper than `maxNestingDepth` is an error. -/
def pushParseState (f : Frame) (ps : List Frame) (next : Step) : Scanner :=
  if ps.length + 1 ≤ maxNestingDepth then { step := next, parseState := f :: ps }
  else scanError

/-- Go's `stateBeginValue`. -/
def stateBeginValue (ps : List Frame) (c : Char) : Scanner :=
  if isSpace c then { step := Step.beginValue, parseState := ps }
  else if c = '{' then pushParseState (Frame.object [] none) ps Step.beginStringOrEmpty
  else if c = '[' then pushParseState (Frame.array []) ps Step.beginValueOrEmpty
  else if c = dquote then { step := Step.inString [], parseState := ps }
  else if c = '-' then { step := Step.neg [c], parseState := ps }
  else if c = '0' then { step := Step.s0 [c], parseState := ps }
  else if c = 't' then { step := Step.literal "rue".toList (JSON.bool true), parseState := ps }
  else if c = 'f' then { step := Step.literal "alse".toList (JSON.bool false), parseState := ps }
  else if c = 'n' then { step := Step.literal "ull".toList JSON.null, parseState := ps }
  else if '1' ≤ c ∧ c ≤ '9' then { step := Step.s1 [c], parseState := ps }
  else scanError

/-- Go's `stateBeginString`. -/
def stateBeginString (ps : List Frame) (c : Char) : Scanner :=
  if isSpace c then { step := Step.beginString, parseState := ps }
  else if c = dquote then { step := Step.inString [], parseState := ps }
  else scanError

/-- The end of a number literal at a character that is not part of it: Go calls
`stateEndValue` on that character. -/
def endNumber (lit : Str) (ps : List Frame) (c : Char) : Scanner :=
  match endOfValue (JSON.number lit) ps with
  | { step := Step.endValue, parseState := ps1 } => stateEndValue ps1 c
  | s => s

/-- Go's `state0`: after the integer part of a number. -/
def state0 (lit : Str) (ps : List Frame) (c : Char) : Scanner :=
  if c = '.' then { step := Step.dot (lit ++ [c]), parseState := ps }
  else if c = 'e' ∨ c = 'E' then { step := Step.e (lit ++ [c]), parseState := ps }
  else endNumber lit ps c

/-- Go's `stateESign`: after the sign of an exponent. -/
def stateESign (lit : Str) (ps : List Frame) (c : Char) : Scanner :=
  if isDigit c then { step := Step.e0 (lit ++ [c]), parseState := ps } else scanError

/-- One step of the scanner on the character `c`. -/
def scanStep (s : Scanner) (c : Char) : Scanner :=
  let ps := s.parseState
  match s.step with
  | Step.beginValueOrEmpty =>
    if isSpace c then s
    else if c = ']' then stateEndValue ps c
    else stateBeginValue ps c
  | Step.beginValue => stateBeginValue ps c
  | Step.beginStringOrEmpty =>
    if isSpace c then s
    else if c = '}' then stateEndValue ps c
    else stateBeginString ps c
  | Step.beginString => stateBeginString ps c
  | Step.endValue => stateEndValue ps c
  | Step.endTop _ => s
  | Step.inString raw =>
    if c = dquote then
      match unquote raw with
      | some str => endOfValue (JSON.string str) ps
      | none => scanError
    else if c = bslash then { step := Step.inStringEsc (raw ++ [c]), parseState := ps }
    else if c.toNat < 0x20 then scanError
    else { step := Step.inString (raw ++ [c]), parseState := ps }
  | Step.inStringEsc raw =>
    if c = 'b' ∨ c = 'f' ∨ c = 'n' ∨ c = 'r' ∨ c = 't' ∨ c = bslash ∨ c = '/' ∨ c = dquote then
      { step := Step.inString (raw ++ [c]), parseState := ps }
    else if c = 'u' then { step := Step.inStringEscU (raw ++ [c]) 0, parseState := ps }
    else scanError
  | Step.inStringEscU raw n =>
    if (hexVal c).isSome then
      if n < 3 then { step := Step.inStringEscU (raw ++ [c]) (n + 1), parseState := ps }
      else { step := Step.inString (raw ++ [c]), parseState := ps }
    else scanError
  | Step.neg lit =>
    if c = '0' then { step := Step.s0 (lit ++ [c]), parseState := ps }
    else if '1' ≤ c ∧ c ≤ '9' then { step := Step.s1 (lit ++ [c]), parseState := ps }
    else scanError
  | Step.s1 lit =>
    if isDigit c then { step := Step.s1 (lit ++ [c]), parseState := ps }
    else state0 lit ps c
  | Step.s0 lit => state0 lit ps c
  | Step.dot lit =>
    if isDigit c then { step := Step.dot0 (lit ++ [c]), parseState := ps } else scanError
  | Step.dot0 lit =>
    if isDigit c then { step := Step.dot0 (lit ++ [c]), parseState := ps }
    else if c = 'e' ∨ c = 'E' then { step := Step.e (lit ++ [c]), parseState := ps }
    else endNumber lit ps c
  | Step.e lit =>
    if c = '+' ∨ c = '-' then { step := Step.eSign (lit ++ [c]), parseState := ps }
    else stateESign lit ps c
  | Step.eSign lit => stateESign lit ps c
  | Step.e0 lit =>
    if isDigit c then { step := Step.e0 (lit ++ [c]), parseState := ps }
    else endNumber lit ps c
  | Step.literal rest v =>
    match rest with
    | [] => scanError
    | [x] => if c = x then endOfValue v ps else scanError
    | x :: more => if c = x then { step := Step.literal more v, parseState := ps } else scanError
  | Step.error => s

/-- The scanner before the first character of the input. -/
def scanInit : Scanner :=
  { step := Step.beginValue, parseState := [] }

/-- The scanner after the characters of `txt`. -/
def scan (s : Scanner) (txt : Str) : Scanner :=
  txt.foldl scanStep s

/-- Go's `Decoder.readValue` on a complete input: the first JSON value of the input.
The scan stops where that value ends, so what follows it is not looked at; at the end
of the input Go feeds the scanner one space, which ends a top-level number. A wrong
character is a syntax error; an input that ends early fails with `io.EOF` when it holds
only space and with `io.ErrUnexpectedEOF` otherwise. -/
def readValue (input : Str) : Except Error JSON :=
  let s := scan scanInit input
  match s.step with
  | Step.error => Except.error Error.jsonSyntax
  | _ =>
    match (scanStep s ' ').step with
    | Step.endTop v => Except.ok v
    | _ => Except.error (if input.all isSpace then Error.jsonEOF else Error.jsonUnexpectedEOF)

/-! ## `encoding/json`: storing a value into Go data

After `readValue`, `Decode` stores the value into the target (`decode.go`). A JSON
`null` leaves strings, booleans, integers and structs as they are and makes a slice
nil; an array is stored into a slice element by element, over what the backing array of
the slice holds; a value of the wrong kind is an `UnmarshalTypeError`; object keys are
matched with the fields' JSON names exactly or, failing that, without regard to case;
members that match no field are skipped. -/

/-- Go's `strconv.ParseUint` in base 10, before the range check: a non-empty run of
decimal digits. -/
def parseUint (s : Str) : Option Nat :=
  if s ≠ [] ∧ s.all isDigit = true then
    some (s.foldl (fun n c => n * 10 + (c.toNat - '0'.toNat)) 0)
  else none

/-- Go's `strconv.ParseInt(s, 10, 64)`: an optional sign and decimal digits, in the range
of `int64`. -/
def ParseInt (s : Str) : Option Int :=
  match s with
  | [] => none
  | c :: rest =>
    let neg : Bool := c == '-'
    let digits := if c = '+' ∨ c = '-' then rest else s
    match parseUint digits with
    | none => none
    | some un =>
      if !neg && decide (un ≥ 2 ^ 63) then none
      else if neg && decide (un > 2 ^ 63) then none
      else some (if neg then -(un : Int) else (un : Int))

/-- Go's `foldRune` (the smallest member of the simple case-folding orbit) on the code
points that can fold to an ASCII letter, digit or underscore: ASCII lower case, the
Kelvin sign U+212A and the long s U+017F. The other code points fold to non-ASCII code
points and are left as they are, which decides every comparison with an ASCII name as
Go does. -/
def foldRune (c : Char) : Char :=
  if 'a' ≤ c ∧ c ≤ 'z' then Char.ofNat (c.toNat - 32)
  else if c = Char.ofNat 0x212a then 'K'
  else if c = Char.ofNat 0x17f then 'S'
  else c

/-- Go's `foldName`. -/
def foldName (s : Str) : Str :=
  s.map foldRune

/-- The index of the first name that satisfies `p`. -/
def fieldIndex (p : Str → Bool) : List Str → Option Nat
  | [] => none
  | n :: ns => if p n then some 0 else (fieldIndex p ns).map (· + 1)

/-- The field of a struct an object key is stored into: the field with that JSON name,
else the first field whose folded name is the folded key. -/
def findField (names : List Str) (key : Str) : Option Nat :=
  match fieldIndex (fun n => decide (n = key)) names with
  | some i => some i
  | none => fieldIndex (fun n => decide (foldName n = foldName key)) names

/-- Storing a JSON value into a Go `string`. -/
def storeString (v : JSON) (cur : Str) : Except Error Str :=
  match v with
  | JSON.null => Except.ok cur
  | JSON.string s => Except.ok s
  | _ => Except.error Error.jsonUnmarshalType

/-- Storing a JSON value into a Go `bool`. -/
def storeBool (v : JSON) (cur : Bool) : Except Error Bool :=
  match v with
  | JSON.null => Except.ok cur
  | JSON.bool b => Except.ok b
  | _ => Except.error Error.jsonUnmarshalType

/-- Storing a JSON value into a Go `int`: the literal must pass `strconv.ParseInt`. -/
def storeInt (v : JSON) (cur : Int) : Except Error Int :=
  match v with
  | JSON.null => Except.ok cur
  | JSON.number lit =>
    match ParseInt lit with
    | some n => Except.ok n
    | none => Except.error Error.jsonUnmarshalType
  | _ => Except.error Error.jsonUnmarshalType

/-- Storing the members of a JSON object into a struct, in the order of the text: a member
whose key matches field `i` is stored by `set`, the others are skipped. Go records the
first type error and goes on; `Decode` then returns that error and the callers drop the
value, so stopping at the first error gives the same result. -/
def storeMembers {α : Type} (names : List Str) (set : α → Nat → JSON → Except Error α) :
    List (Str × JSON) → α → Except Error α
  | [], cur => Except.ok cur
  | (k, v) :: ms, cur =>
    match findField names k with
    | none => storeMembers names set ms cur
    | some i =>
      match set cur i v with
      | Except.error e => Except.error e
      | Except.ok next => storeMembers names set ms next

/-- Storing a JSON value into a struct. -/
def storeStruct {α : Type} (names : List Str) (set : α → Nat → JSON → Except Error α)
    (v : JSON) (cur : α) : Except Error α :=
  match v with
  | JSON.null => Except.ok cur
  | JSON.object ms => storeMembers names set ms cur
  | _ => Except.error Error.jsonUnmarshalType

/-- The loop of Go's `decodeState.array` on a slice whose backing array holds `backing`,
from the element the loop is at: element `i` of the JSON array is stored into element `i`
of the backing array (Go extends the length of the slice over it with `SetLen`), and into
a zero value where the backing array ends (Go grows it, and new memory is zero). -/
def storeElems {α : Type} (zero : α) (store : JSON → α → Except Error α) :
    List JSON → List α → Except Error (List α)
  | [], _ => Except.ok []
  | e :: es, backing =>
    match store e (backing.headD zero) with
    | Except.error err => Except.error err
    | Except.ok x =>
      match storeElems zero store es backing.tail with
      | Except.error err => Except.error err
      | Except.ok xs => Except.ok (x :: xs)

/-- Storing a JSON value into a slice. The slice is `cur` and `spare` is what its backing
array holds after the elements of `cur`, up to the capacity. `null` gives the nil slice.
An array is stored element by element over the backing array; the slice gets the length
of the array and the rest of the backing array stays as it is; when the array is empty
the slice is replaced by a new empty slice (Go's `reflect.MakeSlice(v.Type(), 0, 0)`).
The result is the slice and the rest of its backing array. -/
def storeSlice {α : Type} (zero : α) (store : JSON → α → Except Error α)
    (v : JSON) (cur : Slice α) (spare : List α) : Except Error (Slice α × List α) :=
  match v with
  | JSON.null => Except.ok (none, [])
  | JSON.array elems =>
    match storeElems zero store elems (cur.getD [] ++ spare) with
    | Except.error err => Except.error err
    | Except.ok xs =>
      if xs.length = 0 then Except.ok (some [], [])
      else Except.ok (some xs, (cur.getD [] ++ spare).drop xs.length)
  | _ => Except.error Error.jsonUnmarshalType

/-! ## The types of the package -/

/-- The struct `TranslationPayload`. -/
structure TranslationPayload where
  Text : Slice GoString
  TargetLang : GoString
  SourceLang : GoString
  GlossaryID : GoString
deriving DecidableEq, Repr

/-- The struct `Translation`. -/
structure Translation where
  DetectedSourceLanguage : Str
  Text : Str
deriving DecidableEq, Repr

/-- The struct `TranslationResponse`. -/
structure TranslationResponse where
  Translations : Slice Translation
deriving DecidableEq, Repr

/-- The struct `CreateGlossaryPayload`. -/
structure CreateGlossaryPayload where
  Name : GoString
  SourceLang : GoString
  TargetLang : GoString
  EntriesFormat : GoString
  Entries : GoString
deriving DecidableEq, Repr

/-- The struct `Glossary`. -/
structure Glossary where
  ID : Str
  Name : Str
  Ready : Bool
  SourceLang : Str
  TargetLang : Str
  CreationTime : Str
  EntryCount : Int
deriving DecidableEq, Repr

/-- The zero value of `Glossary`. -/
def Glossary.zero : Glossary :=
  { ID := [], Name := [], Ready := false, SourceLang := [], TargetLang := [],
    CreationTime := [], EntryCount := 0 }

/-- The zero value of `TranslationResponse`. -/
def TranslationResponse.zero : TranslationResponse :=
  { Translations := none }

/-- The zero value of `Translation`. -/
def Translation.zero : Translation :=
  { DetectedSourceLanguage := [], Text := [] }

/-- Go's `json.Marshal` on a `TranslationPayload`: the fields under their JSON names
`text`, `target_lang`, `source_lang`, `glossary_id`, in declaration order. For this type
`Marshal` returns no error. -/
def TranslationPayload.Marshal (p : TranslationPayload) : Str :=
  encodeStruct
    [("text".toList, encodeStringSlice p.Text),
     ("target_lang".toList, appendString p.TargetLang),
     ("source_lang".toList, appendString p.SourceLang),
     ("glossary_id".toList, appendString p.GlossaryID)]

/-- Go's `json.Marshal` on a `CreateGlossaryPayload`: the fields under their JSON names
`name`, `source_lang`, `target_lang`, `entries_format`, `entries`, in declaration order.
For this type `Marshal` returns no error. -/
def CreateGlossaryPayload.Marshal (p : CreateGlossaryPayload) : Str :=
  encodeStruct
    [("name".toList, appendString p.Name),
     ("source_lang".toList, appendString p.SourceLang),
     ("target_lang".toList, appendString p.TargetLang),
     ("entries_format".toList, appendString p.EntriesFormat),
     ("entries".toList, appendString p.Entries)]

/-- The JSON names of the fields of `Translation`. -/
def Translation.fieldNames : List Str :=
  ["detected_source_language".toList, "text".toList]

/-- Storing a JSON value into field `i` of a `Translation`. -/
def Translation.setField (t : Translation) (i : Nat) (v : JSON) : Except Error Translation :=
  match i with
  | 0 => (storeString v t.DetectedSourceLanguage).map fun s => { t with DetectedSourceLanguage := s }
  | 1 => (storeString v t.Text).map fun s => { t with Text := s }
  | _ => Except.ok t

/-- Storing a JSON value into a `Translation`. -/
def Translation.store (v : JSON) (cur : Translation) : Except Error Translation :=
  storeStruct Translation.fieldNames Translation.setField v cur

/-- The JSON names of the fields of `TranslationResponse`. -/
def TranslationResponse.fieldNames : List Str :=
  ["translations".toList]

/-- Storing a JSON value into field `i` of a `TranslationResponse`. The state is the
struct together with what the backing array of its slice `Translations` holds after the
elements of the slice. -/
def TranslationResponse.setField (r : TranslationResponse × List Translation) (i : Nat)
    (v : JSON) : Except Error (TranslationResponse × List Translation) :=
  match i with
  | 0 =>
    (storeSlice Translation.zero Translation.store v r.1.Translations r.2).map
      fun ts => ({ r.1 with Translations := ts.1 }, ts.2)
  | _ => Except.ok r

/-- The JSON names of the fields of `Glossary`. -/
def Glossary.fieldNames : List Str :=
  ["glossary_id".toList, "name".toList, "ready".toList, "source_lang".toList,
   "target_lang".toList, "creation_time".toList, "entry_count".toList]

/-- Storing a JSON value into field `i` of a `Glossary`. -/
def Glossary.setField (g : Glossary) (i : Nat) (v : JSON) : Except Error Glossary :=
  match i with
  | 0 => (storeString v g.ID).map fun s => { g with ID := s }
  | 1 => (storeString v g.Name).map fun s => { g with Name := s }
  | 2 => (storeBool v g.Ready).map fun b => { g with Ready := b }
  | 3 => (storeString v g.SourceLang).map fun s => { g with SourceLang := s }
  | 4 => (storeString v g.TargetLang).map fun s => { g with TargetLang := s }
  | 5 => (storeString v g.CreationTime).map fun s => { g with CreationTime := s }
  | 6 => (storeInt v g.EntryCount).map fun n => { g with EntryCount := n }
  | _ => Except.ok g

/-- The call `json.NewDecoder(body).Decode(&responseData)` of `Translate`, on a body that
is read to its end: the first JSON value of the body stored into `responseData`, whose
slice has no capacity beyond its length (`Translate` passes the zero value, a nil slice). -/
def TranslationResponse.Decode (body : Str) (responseData : TranslationResponse) :
    Except Error TranslationResponse :=
  match readValue body with
  | Except.error err => Except.error err
  | Except.ok v =>
    (storeStruct TranslationResponse.fieldNames TranslationResponse.setField v
      (responseData, [])).map Prod.fst

/-- The call `json.NewDecoder(body).Decode(&createdGlossary)` of `CreateGlossary`, on a
body that is read to its end. -/
def Glossary.Decode (body : Str) (createdGlossary : Glossary) : Except Error Glossary :=
  match readValue body with
  | Except.error err => Except.error err
  | Except.ok v => storeStruct Glossary.fieldNames Glossary.setField v createdGlossary

/-! ## `net/http` and `io` -/

/-- The fields of `http.Request` the package sets: method, URL, header and body (`none`
for the nil body). -/
structure Request where
  Method : Str
  URL : Str
  Header : List (Str × Str)
  Body : Option Str
deriving DecidableEq, Repr

/-- The fields of `http.Response` the package reads: the status line and the body, here a
body of well-formed UTF-8 text that can be read to its end. -/
structure Response where
  Status : Str
  StatusCode : Int
  Body : Str
deriving DecidableEq, Repr

/-- The world outside the package: `parseURL` is the syntax check `http.NewRequest` makes
on the URL (`url.Parse`; `none` when the URL is accepted) and `Do` is what
`http.Client.Do` returns for a request, a response pointer (`none` for nil) and an error. -/
structure Env where
  parseURL : Str → Option Error
  Do : Request → Option Response × Option Error

/-- Go's `http.NewRequest` for the methods the package passes (`GET` and `POST`, both valid
methods): it fails when the URL does not parse, and otherwise returns a request with an
empty header. -/
def NewRequest (env : Env) (method url : Str) (body : Option Str) : Except Error Request :=
  match env.parseURL url with
  | some err => Except.error err
  | none => Except.ok { Method := method, URL := url, Header := [], Body := body }

/-- Go's `Header.Set` on a canonical key: the entry for `key` is replaced. -/
def Request.setHeader (req : Request) (key value : Str) : Request :=
  { req with Header := req.Header.filter (fun kv => decide (kv.1 ≠ key)) ++ [(key, value)] }

/-- The value a request's header holds for `key`. -/
def Request.headerValue (req : Request) (key : Str) : Option Str :=
  (req.Header.find? fun kv => decide (kv.1 = key)).map Prod.snd

/-- An `io.Reader`: the content it delivers and the error it ends with (`none` for
`io.EOF`, the regular end). -/
structure Reader where
  data : GoString
  err : Option Error
deriving DecidableEq, Repr

/-- Go's `io.Copy` into a `strings.Builder`: the content read and the read error, if any. -/
def Copy (src : Reader) : GoString × Option Error :=
  (src.data, src.err)

/-! ## The operations -/

/-- How a call ends: it returns a value and an error, or it panics. -/
inductive Outcome (α : Type)
  | ret (val : α) (err : Option Error)
  | panic
deriving DecidableEq, Repr

/-- What a call does: the exchanges with the HTTP transport (each request with the answer
of `http.Client.Do`), the lines printed to standard output, the messages logged, and the
outcome. -/
structure Run (α : Type) where
  exchanges : List (Request × (Option Response × Option Error))
  stdout : List Str
  logged : List Str
  outcome : Outcome α

/-- The method `Translate`. -/
def Translate (env : Env) (d : Deepl) (text : Slice GoString)
    (sourceLang targetLang glossaryID : GoString) : Run (Slice Translation) :=
  let payload : TranslationPayload :=
    { Text := text, TargetLang := targetLang, SourceLang := sourceLang, GlossaryID := glossaryID }
  let j := payload.Marshal
  let url := d.baseURL ++ "/translate".toList
  match NewRequest env "POST".toList url (some j) with
  | Except.error err =>
    { exchanges := [], stdout := [], logged := [], outcome := Outcome.ret none (some err) }
  | Except.ok req0 =>
    let req1 := req0.setHeader "Authorization".toList ("DeepL-Auth-Key ".toList ++ d.apiKey)
    let req := req1.setHeader "Content-Type".toList "application/json".toList
    let answer := env.Do req
    { exchanges := [(req, answer)], stdout := [], logged := [],
      outcome :=
        match answer.2 with
        | some err => Outcome.ret none (some err)
        | none =>
          match answer.1 with
          | none => Outcome.panic
          | some resp =>
            match TranslationResponse.Decode resp.Body TranslationResponse.zero with
            | Except.error err => Outcome.ret none (some err)
            | Except.ok responseData => Outcome.ret responseData.Translations none }

/-- The method `GetGlossaries`. -/
def GetGlossaries (env : Env) (d : Deepl) : Run Str :=
  let url := d.baseURL ++ "/glossaries".toList
  match NewRequest env "GET".toList url none with
  | Except.error err =>
    { exchanges := [], stdout := [], logged := [], outcome := Outcome.ret [] (some err) }
  | Except.ok req0 =>
    let req := req0.setHeader "Authorization".toList ("DeepL-Auth-Key ".toList ++ d.apiKey)
    let answer := env.Do req
    { exchanges := [(req, answer)], stdout := [], logged := [],
      outcome :=
        match answer.2 with
        | some err => Outcome.ret [] (some err)
        | none =>
          match answer.1 with
          | none => Outcome.panic
          | some _ => Outcome.ret [] none }

/-- The method `CreateGlossary`. The status of the response is logged before the error of
`client.Do` is looked at, so a nil response is dereferenced there. -/
def CreateGlossary (env : Env) (d : Deepl) (name sourceLang targetLang : GoString)
    (entriesTSV : Reader) : Run (Option Glossary) :=
  let copied := Copy entriesTSV
  match copied.2 with
  | some err =>
    { exchanges := [], stdout := [], logged := [], outcome := Outcome.ret none (some err) }
  | none =>
    let entries := ReplaceAll copied.1 (utf8 "\r\n".toList) (utf8 "\n".toList)
    let payload : CreateGlossaryPayload :=
      { Name := name, SourceLang := sourceLang, TargetLang := targetLang,
        EntriesFormat := utf8 "tsv".toList, Entries := entries }
    let j := payload.Marshal
    let url := d.baseURL ++ "/glossaries".toList
    match NewRequest env "POST".toList url (some j) with
    | Except.error err =>
      { exchanges := [], stdout := [j], logged := [], outcome := Outcome.ret none (some err) }
    | Except.ok req0 =>
      let req1 := req0.setHeader "Authorization".toList ("DeepL-Auth-Key ".toList ++ d.apiKey)
      let req := req1.setHeader "Content-Type".toList "application/json".toList
      let answer := env.Do req
      match answer.1 with
      | none => { exchanges := [(req, answer)], stdout := [j], logged := [], outcome := Outcome.panic }
      | some resp =>
        { exchanges := [(req, answer)], stdout := [j],
          logged := ["Response: ".toList ++ resp.Status],
          outcome :=
            match answer.2 with
            | some err => Outcome.ret none (some err)
            | none =>
              match Glossary.Decode resp.Body Glossary.zero with
              | Except.error err => Outcome.ret none (some err)
              | Except.ok createdGlossary => Outcome.ret (some createdGlossary) none }

/-! ## Notions used to state the properties -/

/-- Replacing, from left to right, every `\r\n` (the bytes 13 and 10) by `\n` and keeping
every other byte: the normalisation the specification asks of the glossary entries. -/
def normalizeCRLF : GoString → GoString
  | [] => []
  | [c] => [c]
  | c :: d :: rest =>
    if c = 13 ∧ d = 10 then 10 :: normalizeCRLF rest
    else c :: normalizeCRLF (d :: rest)

/-- The text `txt` scans as the value `v`: from a state that expects a value, below any
parse stack that leaves room for `d` more levels, the scanner ends `txt` with `v` complete. -/
def ScansAs (txt : Str) (v : JSON) (d : Nat) : Prop :=
  ∀ (ps : List Frame) (st : Step), ps.length + d ≤ maxNestingDepth →
    (st = Step.beginValue ∨ st = Step.beginValueOrEmpty) →
    scan { step := st, parseState := ps } txt = endOfValue v ps

/-- The text `txt` followed by a separator scans as the value `v` followed by that
separator; this covers numbers, which end at the first character after them. -/
def ScansBefore (txt : Str) (v : JSON) (d : Nat) : Prop :=
  ∀ (ps : List Frame) (st : Step) (c : Char), ps.length + d ≤ maxNestingDepth →
    (st = Step.beginValue ∨ st = Step.beginValueOrEmpty) →
    (c = ',' ∨ c = ']' ∨ c = '}') →
    scan { step := st, parseState := ps } (txt ++ [c]) = scanStep (endOfValue v ps) c

/-- The JSON value of the `text` field of a request: `null` for the nil slice, else the
array of the strings, each with its code points. -/
def textJSON : Slice GoString → JSON
  | none => JSON.null
  | some xs => JSON.array (xs.map fun x => JSON.string (runes x))

/-- The JSON object of a `TranslationPayload`: every string with its code points, U+FFFD
standing for each byte that is not part of a well-formed UTF-8 sequence. -/
def TranslationPayload.toJSON (p : TranslationPayload) : JSON :=
  JSON.object
    [("text".toList, textJSON p.Text),
     ("target_lang".toList, JSON.string (runes p.TargetLang)),
     ("source_lang".toList, JSON.string (runes p.SourceLang)),
     ("glossary_id".toList, JSON.string (runes p.GlossaryID))]

/-- The JSON object of a `CreateGlossaryPayload`: every string with its code points, U+FFFD
standing for each byte that is not part of a well-formed UTF-8 sequence. -/
def CreateGlossaryPayload.toJSON (p : CreateGlossaryPayload) : JSON :=
  JSON.object
    [("name".toList, JSON.string (runes p.Name)),
     ("source_lang".toList, JSON.string (runes p.SourceLang)),
     ("target_lang".toList, JSON.string (runes p.TargetLang)),
     ("entries_format".toList, JSON.string (runes p.EntriesFormat)),
     ("entries".toList, JSON.string (runes p.Entries))]

/-- The values a JSON value holds for the field `Translations`: the values of the members
of an object whose key `Decode` matches with the JSON name `translations` (exactly or
without regard to case), in the order of the text; none for a value that is no object. -/
def translationsValues : JSON → List JSON
  | JSON.object ms =>
    (ms.filter fun kv => (findField TranslationResponse.fieldNames kv.1).isSome).map Prod.snd
  | _ => []

/-- The JSON object of one translation: `detected_source_language` and `text`. -/
def Translation.toJSON (t : Translation) : JSON :=
  JSON.object
    [("detected_source_language".toList, JSON.string t.DetectedSourceLanguage),
     ("text".toList, JSON.string t.Text)]

/-- The JSON object whose `translations` member is the array of the given translations. -/
def translationsJSON (ts : List Translation) : JSON :=
  JSON.object [("translations".toList, JSON.array (ts.map Translation.toJSON))]

/-- The decimal digits of `n`, most significant first; `fuel` bounds the number of digits. -/
def decimalDigits : Nat → Nat → Str
  | 0, _ => []
  | fuel + 1, n =>
    if n < 10 then [Char.ofNat ('0'.toNat + n)]
    else decimalDigits fuel (n / 10) ++ [Char.ofNat ('0'.toNat + n % 10)]

/-- Go's `strconv.FormatInt(n, 10)`, as the JSON encoder writes integers. -/
def FormatInt (n : Int) : Str :=
  if n < 0 then '-' :: decimalDigits (n.natAbs + 1) n.natAbs
  else decimalDigits (n.natAbs + 1) n.natAbs

/-- The JSON object of a `Glossary`: `glossary_id`, `name`, `ready`, `source_lang`,
`target_lang`, `creation_time` and `entry_count`. -/
def Glossary.toJSON (g : Glossary) : JSON :=
  JSON.object
    [("glossary_id".toList, JSON.string g.ID),
     ("name".toList, JSON.string g.Name),
     ("ready".toList, JSON.bool g.Ready),
     ("source_lang".toList, JSON.string g.SourceLang),
     ("target_lang".toList, JSON.string g.TargetLang),
     ("creation_time".toList, JSON.string g.CreationTime),
     ("entry_count".toList, JSON.number (FormatInt g.EntryCount))]

/-- The member `i` of the JSON object of a glossary. -/
def Glossary.member (g : Glossary) (i : Nat) : Str × JSON :=
  match i with
  | 0 => ("glossary_id".toList, JSON.string g.ID)
  | 1 => ("name".toList, JSON.string g.Name)
  | 2 => ("ready".toList, JSON.bool g.Ready)
  | 3 => ("source_lang".toList, JSON.string g.SourceLang)
  | 4 => ("target_lang".toList, JSON.string g.TargetLang)
  | 5 => ("creation_time".toList, JSON.string g.CreationTime)
  | _ => ("entry_count".toList, JSON.number (FormatInt g.EntryCount))

/-- The glossary `cur` with field `i` taken from `g`. -/
def Glossary.copyField (g cur : Glossary) (i : Nat) : Glossary :=
  match i with
  | 0 => { cur with ID := g.ID }
  | 1 => { cur with Name := g.Name }
  | 2 => { cur with Ready := g.Ready }
  | 3 => { cur with SourceLang := g.SourceLang }
  | 4 => { cur with TargetLang := g.TargetLang }
  | 5 => { cur with CreationTime := g.CreationTime }
  | 6 => { cur with EntryCount := g.EntryCount }
  | _ => cur

/-- The member `i` of the JSON object of a translation. -/
def Translation.member (t : Translation) (i : Nat) : Str × JSON :=
  match i with
  | 0 => ("detected_source_language".toList, JSON.string t.DetectedSourceLanguage)
  | _ => ("text".toList, JSON.string t.Text)

/-- The translation `cur` with field `i` taken from `t`. -/
def Translation.copyField (t cur : Translation) (i : Nat) : Translation :=
  match i with
  | 0 => { cur with DetectedSourceLanguage := t.DetectedSourceLanguage }
  | 1 => { cur with Text := t.Text }
  | _ => cur

/-- The JSON text Go's encoder writes for a `Translation`. -/
def Translation.Marshal (t : Translation) : Str :=
  encodeStruct
    [("detected_source_language".toList, appendString (utf8 t.DetectedSourceLanguage)),
     ("text".toList, appendString (utf8 t.Text))]

/-- The JSON text Go's encoder writes for a response with the given translations. -/
def translationsText (ts : List Translation) : Str :=
  encodeStruct
    [("translations".toList,
      '[' :: ((",".toList).intercalate (ts.map Translation.Marshal) ++ [']']))]

/-- The JSON text Go's encoder writes for a `Glossary`. -/
def Glossary.Marshal (g : Glossary) : Str :=
  encodeStruct
    [("glossary_id".toList, appendString (utf8 g.ID)),
     ("name".toList, appendString (utf8 g.Name)),
     ("ready".toList, if g.Ready then "true".toList else "false".toList),
     ("source_lang".toList, appendString (utf8 g.SourceLang)),
     ("target_lang".toList, appendString (utf8 g.TargetLang)),
     ("creation_time".toList, appendString (utf8 g.CreationTime)),
     ("entry_count".toList, FormatInt g.EntryCount)]

/-- The request `Translate` builds: a `POST` to `baseURL` followed by `/translate`, the
marshalled payload as body, and the headers `Authorization` and `Content-Type`. -/
def translateRequest (d : Deepl) (text : Slice GoString)
    (sourceLang targetLang glossaryID : GoString) : Request :=
  (({ Method := "POST".toList, URL := d.baseURL ++ "/translate".toList, Header := [],
      Body := some (TranslationPayload.Marshal
        { Text := text, TargetLang := targetLang, SourceLang := sourceLang,
          GlossaryID := glossaryID }) } : Request).setHeader
      "Authorization".toList ("DeepL-Auth-Key ".toList ++ d.apiKey)).setHeader
    "Content-Type".toList "application/json".toList

/-- The request `GetGlossaries` builds: a `GET` to `baseURL` followed by `/glossaries`,
no body, and the header `Authorization`. -/
def getGlossariesRequest (d : Deepl) : Request :=
  ({ Method := "GET".toList, URL := d.baseURL ++ "/glossaries".toList, Header := [],
     Body := none } : Request).setHeader
    "Authorization".toList ("DeepL-Auth-Key ".toList ++ d.apiKey)

/-- The payload `CreateGlossary` builds from its arguments and the content of the stream. -/
def glossaryPayload (name sourceLang targetLang content : GoString) : CreateGlossaryPayload :=
  { Name := name, SourceLang := sourceLang, TargetLang := targetLang,
    EntriesFormat := utf8 "tsv".toList,
    Entries := ReplaceAll content (utf8 "\r\n".toList) (utf8 "\n".toList) }

/-- The request `CreateGlossary` builds: a `POST` to `baseURL` followed by `/glossaries`,
the marshalled payload as body, and the headers `Authorization` and `Content-Type`. -/
def createGlossaryRequest (d : Deepl) (name sourceLang targetLang content : GoString) :
    Request :=
  (({ Method := "POST".toList, URL := d.baseURL ++ "/glossaries".toList, Header := [],
      Body := some (glossaryPayload name sourceLang targetLang content).Marshal } : Request).setHeader
      "Authorization".toList ("DeepL-Auth-Key ".toList ++ d.apiKey)).setHeader
    "Content-Type".toList "application/json".toList

/-- The same world with the status of every response replaced. -/
def Env.withStatus (env : Env) (status : Str) (code : Int) : Env :=
  { parseURL := env.parseURL,
    Do := fun req =>
      ((env.Do req).1.map fun r => { r with Status := status, StatusCode := code },
       (env.Do req).2) }

/-- A world where every URL parses and the transport answers every request with `resp`. -/
def Env.answering (resp : Response) : Env :=
  { parseURL := fun _ => none, Do := fun _ => (some resp, none) }

/-- A world where every URL parses and the transport fails with `err` and no response. -/
def Env.failing (err : Error) : Env :=
  { parseURL := fun _ => none, Do := fun _ => (none, some err) }

/-- The client `New("http://x", "key")` returns. -/
def exampleClient : Deepl :=
  { baseURL := "http://x".toList, apiKey := "key".toList }

set_option maxRecDepth 100000

/-! ## Lemmas -/

theorem hasSuffix_singleton (s : Str) (c : Char) :
    HasSuffix s [c] = true ↔ s.getLast? = some c := by
  rcases List.eq_nil_or_concat s with h | ⟨init, last, h⟩
  · subst h; simp [HasSuffix]
  · subst h
    simp [HasSuffix]

/-! ## UTF-8 -/

theorem byte_val (n : Nat) : (byte n).val = n % 256 := rfl

theorem char_range (c : Char) : c.toNat < 0xd800 ∨ (0xdfff < c.toNat ∧ c.toNat < 0x110000) := by
  have h := c.valid
  simp only [UInt32.isValidChar, Nat.isValidChar] at h
  exact h

theorem decode_size1 (b0 : Byte) (rest : GoString) (h0 : b0.val < 0x80) :
    DecodeRuneInString (b0 :: rest) = (b0.val, 1) := by
  simp only [DecodeRuneInString, if_pos h0]

theorem decode_size2 (b0 b1 : Byte) (rest : GoString)
    (h0 : 0xc2 ≤ b0.val) (h0a : b0.val < 0xe0) (h1 : 0x80 ≤ b1.val) (h1a : b1.val ≤ 0xbf) :
    DecodeRuneInString (b0 :: b1 :: rest) = (b0.val % 32 * 64 + b1.val % 64, 2) := by
  have e : runeWidth b0.val = 2 := by simp only [runeWidth, if_pos h0a]
  have elo : acceptLo b0.val = 0x80 := by
    have n1 : ¬ b0.val = 0xe0 := by omega
    have n2 : ¬ b0.val = 0xf0 := by omega
    simp only [acceptLo, if_neg n1, if_neg n2]
  have ehi : acceptHi b0.val = 0xbf := by
    have n1 : ¬ b0.val = 0xed := by omega
    have n2 : ¬ b0.val = 0xf4 := by omega
    simp only [acceptHi, if_neg n1, if_neg n2]
  have c1 : ¬ b0.val < 0x80 := by omega
  have c2 : ¬ (b0.val < 0xc2 ∨ 0xf4 < b0.val) := by omega
  have c3 : ¬ (rest.length + 1 + 1 < 2) := by omega
  have c4 : ¬ (b1.val < 0x80 ∨ 0xbf < b1.val) := by omega
  simp only [DecodeRuneInString, List.getD_cons_succ, List.getD_cons_zero, List.length_cons,
    e, elo, ehi, if_neg c1, if_neg c2, if_neg c3, if_neg c4, if_pos (Nat.le_refl 2)]

theorem decode_size3 (b0 b1 b2 : Byte) (rest : GoString)
    (h0 : 0xe0 ≤ b0.val) (h0a : b0.val < 0xf0)
    (h1 : acceptLo b0.val ≤ b1.val) (h1a : b1.val ≤ acceptHi b0.val)
    (h2 : 0x80 ≤ b2.val) (h2a : b2.val ≤ 0xbf) :
    DecodeRuneInString (b0 :: b1 :: b2 :: rest) =
      (b0.val % 16 * 4096 + b1.val % 64 * 64 + b2.val % 64, 3) := by
  have e : runeWidth b0.val = 3 := by
    have n1 : ¬ b0.val < 0xe0 := by omega
    simp only [runeWidth, if_neg n1, if_pos h0a]
  have c1 : ¬ b0.val < 0x80 := by omega
  have c2 : ¬ (b0.val < 0xc2 ∨ 0xf4 < b0.val) := by omega
  have c3 : ¬ (rest.length + 1 + 1 + 1 < 3) := by omega
  have c4 : ¬ (b1.val < acceptLo b0.val ∨ acceptHi b0.val < b1.val) := by omega
  have c5 : ¬ (3 ≤ 2) := by decide
  have c6 : ¬ (b2.val < 0x80 ∨ 0xbf < b2.val) := by omega
  simp only [DecodeRuneInString, List.getD_cons_succ, List.getD_cons_zero, List.length_cons,
    e, if_neg c1, if_neg c2, if_neg c3, if_neg c4, if_neg c5, if_neg c6,
    if_pos (Nat.le_refl 3)]

theorem decode_size4 (b0 b1 b2 b3 : Byte) (rest : GoString)
    (h0 : 0xf0 ≤ b0.val) (h0a : b0.val ≤ 0xf4)
    (h1 : acceptLo b0.val ≤ b1.val) (h1a : b1.val ≤ acceptHi b0.val)
    (h2 : 0x80 ≤ b2.val) (h2a : b2.val ≤ 0xbf) (h3 : 0x80 ≤ b3.val) (h3a : b3.val ≤ 0xbf) :
    DecodeRuneInString (b0 :: b1 :: b2 :: b3 :: rest) =
      (b0.val % 8 * 262144 + b1.val % 64 * 4096 + b2.val % 64 * 64 + b3.val % 64, 4) := by
  have e : runeWidth b0.val = 4 := by
    have n1 : ¬ b0.val < 0xe0 := by omega
    have n2 : ¬ b0.val < 0xf0 := by omega
    simp only [runeWidth, if_neg n1, if_neg n2]
  have c1 : ¬ b0.val < 0x80 := by omega
  have c2 : ¬ (b0.val < 0xc2 ∨ 0xf4 < b0.val) := by omega
  have c3 : ¬ (rest.length + 1 + 1 + 1 + 1 < 4) := by omega
  have c4 : ¬ (b1.val < acceptLo b0.val ∨ acceptHi b0.val < b1.val) := by omega
  have c5 : ¬ (4 ≤ 2) := by decide
  have c6 : ¬ (b2.val < 0x80 ∨ 0xbf < b2.val) := by omega
  have c7 : ¬ (4 ≤ 3) := by decide
  have c8 : ¬ (b3.val < 0x80 ∨ 0xbf < b3.val) := by omega
  simp only [DecodeRuneInString, List.getD_cons_succ, List.getD_cons_zero, List.length_cons,
    e, if_neg c1, if_neg c2, if_neg c3, if_neg c4, if_neg c5, if_neg c6, if_neg c7, if_neg c8]
/-- At a byte that is not ASCII the decoded code point is not ASCII. -/
theorem decode_nonascii (b : Byte) (rest : GoString) (h : ¬ b.val < 0x80) :
    0x80 ≤ (DecodeRuneInString (b :: rest)).1 := by
  simp only [DecodeRuneInString, if_neg h]
  generalize b.val = s0 at *
  generalize ((b :: rest).getD 1 0).val = s1
  generalize ((b :: rest).getD 2 0).val = s2
  generalize ((b :: rest).getD 3 0).val = s3
  generalize (b :: rest).length = n
  have hw : runeWidth s0 ≤ 2 → s0 < 0xe0 := by
    intro hw; simp only [runeWidth] at hw; split_ifs at hw <;> omega
  have hlo : s0 = 0xe0 → acceptLo s0 = 0xa0 := by
    intro e; simp only [acceptLo, if_pos e]
  have hlo4 : s0 = 0xf0 → acceptLo s0 = 0x90 := by
    intro e; simp only [acceptLo]; rw [if_neg (by omega), if_pos e]
  have hlo0 : 0x80 ≤ acceptLo s0 := by
    simp only [acceptLo]; split_ifs <;> omega
  have hhi0 : acceptHi s0 ≤ 0xbf := by
    simp only [acceptHi]; split_ifs <;> omega
  have hw3 : runeWidth s0 ≤ 3 → s0 < 0xf0 := by
    intro hw; simp only [runeWidth] at hw; split_ifs at hw <;> omega
  have hw2 : ¬ runeWidth s0 ≤ 2 → 0xe0 ≤ s0 := by
    intro hw; simp only [runeWidth] at hw; split_ifs at hw <;> omega
  have hw4 : ¬ runeWidth s0 ≤ 3 → 0xf0 ≤ s0 := by
    intro hw; simp only [runeWidth] at hw; split_ifs at hw <;> omega
  generalize acceptLo s0 = lo at *
  generalize acceptHi s0 = hi at *
  generalize runeWidth s0 = w at *
  split_ifs with c1 c2 c3 c4 c5 c6 c7
  · decide
  · decide
  · decide
  · have := hw c4
    show 128 ≤ s0 % 32 * 64 + s1 % 64
    omega
  · decide
  · have := hw3 c6
    have := hw2 c4
    show 128 ≤ s0 % 16 * 4096 + s1 % 64 * 64 + s2 % 64
    omega
  · decide
  · have := hw4 c6
    show 128 ≤ s0 % 8 * 262144 + s1 % 64 * 4096 + s2 % 64 * 64 + s3 % 64
    omega

theorem DecodeRuneInString_EncodeRune (c : Char) (rest : GoString) :
    DecodeRuneInString (EncodeRune c ++ rest) = (c.toNat, (EncodeRune c).length) := by
  have hr := char_range c
  unfold EncodeRune
  simp only []
  generalize c.toNat = r at *
  split_ifs with h1 h2 h3
  · rw [List.singleton_append, decode_size1 _ _ (by rw [byte_val]; omega), byte_val]
    simp only [List.length_singleton, Prod.mk.injEq, and_true]
    omega
  · rw [List.cons_append, List.cons_append, List.nil_append,
      decode_size2 _ _ _ (by rw [byte_val]; omega) (by rw [byte_val]; omega)
        (by rw [byte_val]; omega) (by rw [byte_val]; omega)]
    simp only [byte_val, List.length_cons, List.length_nil, Prod.mk.injEq, and_true]
    omega
  · rw [List.cons_append, List.cons_append, List.cons_append, List.nil_append,
      decode_size3 _ _ _ _ (by rw [byte_val]; omega) (by rw [byte_val]; omega)
        (by simp only [byte_val, acceptLo]; split_ifs <;> omega)
        (by simp only [byte_val, acceptHi]; split_ifs <;> omega)
        (by rw [byte_val]; omega) (by rw [byte_val]; omega)]
    simp only [byte_val, List.length_cons, List.length_nil, Prod.mk.injEq, and_true]
    omega
  · rw [List.cons_append, List.cons_append, List.cons_append, List.cons_append, List.nil_append,
      decode_size4 _ _ _ _ _ (by rw [byte_val]; omega) (by rw [byte_val]; omega)
        (by simp only [byte_val, acceptLo]; split_ifs <;> omega)
        (by simp only [byte_val, acceptHi]; split_ifs <;> omega)
        (by rw [byte_val]; omega) (by rw [byte_val]; omega)
        (by rw [byte_val]; omega) (by rw [byte_val]; omega)]
    simp only [byte_val, List.length_cons, List.length_nil, Prod.mk.injEq, and_true]
    omega

theorem EncodeRune_eq_cons (c : Char) : ∃ b tl, EncodeRune c = b :: tl := by
  unfold EncodeRune
  simp only []
  split_ifs <;> exact ⟨_, _, rfl⟩

theorem runesFrom_zero_cons (b : Byte) (rest : GoString) :
    runesFrom 0 (b :: rest) =
      Char.ofNat (DecodeRuneInString (b :: rest)).1 ::
        runesFrom ((DecodeRuneInString (b :: rest)).2 - 1) rest := rfl

theorem runesFrom_skip (pre rest : GoString) : runesFrom pre.length (pre ++ rest) = runesFrom 0 rest := by
  induction pre with
  | nil => rfl
  | cons b pre ih => exact ih

theorem runesFrom_EncodeRune (c : Char) (rest : GoString) :
    runesFrom 0 (EncodeRune c ++ rest) = c :: runesFrom 0 rest := by
  obtain ⟨b, tl, he⟩ := EncodeRune_eq_cons c
  have hd := DecodeRuneInString_EncodeRune c rest
  rw [he] at hd ⊢
  rw [List.cons_append] at hd ⊢
  rw [runesFrom_zero_cons, hd]
  simp only [List.length_cons, Nat.add_sub_cancel, runesFrom_skip, Char.ofNat_toNat]

theorem runes_utf8 (s : Str) : runes (utf8 s) = s := by
  induction s with
  | nil => rfl
  | cons c s ih =>
    have : utf8 (c :: s) = EncodeRune c ++ utf8 s := by simp [utf8]
    unfold runes at ih ⊢
    rw [this, runesFrom_EncodeRune, ih]

theorem ofNat_toNat_ascii (n : Nat) (c : Char) (h : Char.ofNat n = c) (h0 : 0 < c.toNat) :
    n = c.toNat := by
  subst h
  unfold Char.ofNat at h0 ⊢
  split_ifs at h0 ⊢ with hv
  · rfl
  · exact absurd h0 (by decide)

/-- A byte sequence whose first code point is an ASCII character other than NUL starts
with that character's byte. -/
theorem runes_cons_ascii (s : GoString) (c : Char) (cs : Str) (h : runes s = c :: cs)
    (h0 : 0 < c.toNat) (h1 : c.toNat < 0x80) :
    ∃ b rest, s = b :: rest ∧ b.val = c.toNat ∧ runes rest = cs := by
  cases s with
  | nil => simp [runes, runesFrom] at h
  | cons b rest =>
    refine ⟨b, rest, rfl, ?_⟩
    unfold runes at h ⊢
    rw [runesFrom_zero_cons] at h
    simp only [List.cons.injEq] at h
    have hn := ofNat_toNat_ascii _ _ h.1 h0
    by_cases hb : b.val < 0x80
    · rw [decode_size1 b rest hb] at h hn
      exact ⟨hn, h.2⟩
    · have := decode_nonascii b rest hb
      omega

theorem runes_eq_nil (s : GoString) (h : runes s = []) : s = [] := by
  cases s with
  | nil => rfl
  | cons b rest => simp [runes, runesFrom] at h

theorem runes_eq_crlf (s : GoString) (h : runes s = ['\r', '\n']) : s = [13, 10] := by
  obtain ⟨b, rest, rfl, hb, hr⟩ := runes_cons_ascii s _ _ h (by decide) (by decide)
  obtain ⟨b1, rest1, rfl, hb1, hr1⟩ := runes_cons_ascii rest _ _ hr (by decide) (by decide)
  have := runes_eq_nil rest1 hr1
  subst this
  have e0 : b = 13 := Fin.ext hb
  have e1 : b1 = 10 := Fin.ext hb1
  rw [e0, e1]

/-! ## Scanning what the encoder writes -/

theorem hexVal_hexDigit (n : Nat) (h : n < 16) : hexVal (hexDigit n) = some n := by
  interval_cases n <;> decide

theorem appendRune_length_pos (c : Char) : 0 < (appendRune c).length := by
  unfold appendRune
  split_ifs <;> simp

theorem scan_nil (s : Scanner) : scan s [] = s := rfl

theorem scan_cons (s : Scanner) (c : Char) (txt : Str) :
    scan s (c :: txt) = scan (scanStep s c) txt := rfl

theorem scan_append (s : Scanner) (a b : Str) : scan s (a ++ b) = scan (scan s a) b := by
  simp [scan, List.foldl_append]

theorem step_inString_plain (raw : Str) (ps : List Frame) (c : Char)
    (hq : c ≠ dquote) (hb : c ≠ bslash) (hc : ¬ c.toNat < 0x20) :
    scanStep { step := Step.inString raw, parseState := ps } c =
      { step := Step.inString (raw ++ [c]), parseState := ps } := by
  simp [scanStep, hq, hb, hc]

theorem step_inString_bslash (raw : Str) (ps : List Frame) :
    scanStep { step := Step.inString raw, parseState := ps } bslash =
      { step := Step.inStringEsc (raw ++ [bslash]), parseState := ps } := by
  have : bslash ≠ dquote := by decide
  simp [scanStep, this]

theorem step_inStringEsc_short (raw : Str) (ps : List Frame) (c : Char)
    (h : c = 'b' ∨ c = 'f' ∨ c = 'n' ∨ c = 'r' ∨ c = 't' ∨ c = bslash ∨ c = '/' ∨ c = dquote) :
    scanStep { step := Step.inStringEsc raw, parseState := ps } c =
      { step := Step.inString (raw ++ [c]), parseState := ps } := by
  simp only [scanStep, if_pos h]

theorem step_inStringEsc_u (raw : Str) (ps : List Frame) :
    scanStep { step := Step.inStringEsc raw, parseState := ps } 'u' =
      { step := Step.inStringEscU (raw ++ ['u']) 0, parseState := ps } := by
  have : ¬ ('u' = 'b' ∨ 'u' = 'f' ∨ 'u' = 'n' ∨ 'u' = 'r' ∨ 'u' = 't' ∨ 'u' = bslash ∨
      'u' = '/' ∨ 'u' = dquote) := by decide
  simp only [scanStep, if_neg this, if_true]

theorem step_inStringEscU (raw : Str) (ps : List Frame) (n : Nat) (c : Char)
    (h : (hexVal c).isSome = true) :
    scanStep { step := Step.inStringEscU raw n, parseState := ps } c =
      (if n < 3 then { step := Step.inStringEscU (raw ++ [c]) (n + 1), parseState := ps }
       else { step := Step.inString (raw ++ [c]), parseState := ps }) := by
  simp only [scanStep, if_pos h]

theorem scan_u4 (raw : Str) (ps : List Frame) (a b c d : Char)
    (ha : (hexVal a).isSome = true) (hb : (hexVal b).isSome = true)
    (hc : (hexVal c).isSome = true) (hd : (hexVal d).isSome = true) :
    scan { step := Step.inString raw, parseState := ps } [bslash, 'u', a, b, c, d] =
      { step := Step.inString (raw ++ [bslash, 'u', a, b, c, d]), parseState := ps } := by
  simp [scan_cons, scan_nil, step_inString_bslash, step_inStringEsc_u, step_inStringEscU, ha, hb, hc, hd]

theorem scan_short (raw : Str) (ps : List Frame) (c : Char)
    (h : c = 'b' ∨ c = 'f' ∨ c = 'n' ∨ c = 'r' ∨ c = 't' ∨ c = bslash ∨ c = '/' ∨ c = dquote) :
    scan { step := Step.inString raw, parseState := ps } [bslash, c] =
      { step := Step.inString (raw ++ [bslash, c]), parseState := ps } := by
  simp [scan_cons, scan_nil, step_inString_bslash, step_inStringEsc_short _ _ _ h]

theorem scan_appendRune (raw : Str) (ps : List Frame) (c : Char) :
    scan { step := Step.inString raw, parseState := ps } (appendRune c) =
      { step := Step.inString (raw ++ appendRune c), parseState := ps } := by
  unfold appendRune
  split_ifs with h1 h2 h3 h4 h5 h6 h7 h8 h9
  · simp [htmlSafeSet] at h2
    have : ¬ c.toNat < 0x20 := by omega
    simp [scan_cons, scan_nil, step_inString_plain _ _ _ h2.2.1.1.1.1 h2.2.2 this]
  · exact scan_short raw ps c (by tauto)
  · exact scan_short raw ps _ (by decide)
  · exact scan_short raw ps _ (by decide)
  · exact scan_short raw ps _ (by decide)
  · exact scan_short raw ps _ (by decide)
  · exact scan_short raw ps _ (by decide)
  · apply scan_u4 <;> first | decide | (rw [hexVal_hexDigit _ (by omega)]; rfl)
  · apply scan_u4 <;> first | decide | (rw [hexVal_hexDigit _ (by omega)]; rfl)
  · have hq : c ≠ dquote := by
      intro h; rw [h] at h1; exact h1 (by decide)
    have hb : c ≠ bslash := by
      intro h; rw [h] at h1; exact h1 (by decide)
    have : ¬ c.toNat < 0x20 := by omega
    simp [scan_cons, scan_nil, step_inString_plain _ _ _ hq hb this]

theorem appendStringFrom_zero_cons (b : Byte) (rest : GoString) :
    appendStringFrom 0 (b :: rest) =
      (if b.val < 0x80 then appendRune (Char.ofNat b.val) ++ appendStringFrom 0 rest
       else if DecodeRuneInString (b :: rest) = (RuneError, 1) then
         [bslash, 'u', 'f', 'f', 'f', 'd'] ++ appendStringFrom 0 rest
       else
         appendRune (Char.ofNat (DecodeRuneInString (b :: rest)).1) ++
           appendStringFrom ((DecodeRuneInString (b :: rest)).2 - 1) rest) := rfl

theorem scan_appendStringFrom (s : GoString) (k : Nat) (raw : Str) (ps : List Frame) :
    scan { step := Step.inString raw, parseState := ps } (appendStringFrom k s) =
      { step := Step.inString (raw ++ appendStringFrom k s), parseState := ps } := by
  induction s generalizing k raw with
  | nil => cases k <;> simp [appendStringFrom, scan_nil]
  | cons b rest ih =>
    cases k with
    | succ k => exact ih k raw
    | zero =>
      rw [appendStringFrom_zero_cons]
      split_ifs
      · rw [scan_append, scan_appendRune, ih, List.append_assoc]
      · rw [scan_append, scan_u4 _ _ _ _ _ _ (by decide) (by decide) (by decide) (by decide), ih,
          List.append_assoc]
      · rw [scan_append, scan_appendRune, ih, List.append_assoc]

theorem getu4_low (n : Nat) (h : n < 256) :
    getu4 '0' '0' (hexDigit (n / 16)) (hexDigit (n % 16)) = some n := by
  have h1 := hexVal_hexDigit (n / 16) (by omega)
  have h2 := hexVal_hexDigit (n % 16) (by omega)
  have h0 : hexVal '0' = some 0 := by decide
  simp only [getu4, h0, h1, h2]
  congr 1
  omega

theorem unquoteRune_plain (c : Char) (rest : Str)
    (hq : c ≠ dquote) (hb : c ≠ bslash) (hc : ¬ c.toNat < 0x20) :
    unquoteRune c rest = some (c, rest) := by
  simp [unquoteRune, hq, hb, hc]

theorem unquoteRune_u4 (a b c d : Char) (rest : Str) (n : Nat)
    (h : getu4 a b c d = some n) (hs : isSurrogate n = false) :
    unquoteRune bslash ('u' :: a :: b :: c :: d :: rest) = some (Char.ofNat n, rest) := by
  have h1 : ¬ ('u' = dquote ∨ 'u' = bslash ∨ 'u' = '/' ∨ 'u' = Char.ofNat 0x27) := by decide
  have h2 : ¬ ('u' = 'b') := by decide
  have h3 : ¬ ('u' = 'f') := by decide
  have h4 : ¬ ('u' = 'n') := by decide
  have h5 : ¬ ('u' = 'r') := by decide
  have h6 : ¬ ('u' = 't') := by decide
  simp only [unquoteRune, if_true, if_neg h1, if_neg h2, if_neg h3, if_neg h4, if_neg h5,
    if_neg h6, h, hs]
  rfl

theorem unquoteRune_appendRune (c : Char) (rest : Str) :
    ∃ x tail, appendRune c ++ rest = x :: tail ∧ unquoteRune x tail = some (c, rest) := by
  unfold appendRune
  split_ifs with h1 h2 h3 h4 h5 h6 h7 h8 h9
  · simp [htmlSafeSet] at h2
    have : ¬ c.toNat < 0x20 := by omega
    exact ⟨c, rest, rfl, unquoteRune_plain c rest h2.2.1.1.1.1 h2.2.2 this⟩
  · have : c = dquote ∨ c = bslash ∨ c = '/' ∨ c = Char.ofNat 0x27 := by tauto
    exact ⟨bslash, c :: rest, rfl, by simp [unquoteRune, this]⟩
  · subst h4
    exact ⟨bslash, 'b' :: rest, rfl, rfl⟩
  · subst h5
    exact ⟨bslash, 'f' :: rest, rfl, rfl⟩
  · subst h6
    exact ⟨bslash, 'n' :: rest, rfl, rfl⟩
  · subst h7
    exact ⟨bslash, 'r' :: rest, rfl, rfl⟩
  · subst h8
    exact ⟨bslash, 't' :: rest, rfl, rfl⟩
  · refine ⟨bslash, _, rfl, ?_⟩
    show unquoteRune bslash ('u' :: '0' :: '0' :: hexDigit (c.toNat / 16) ::
      hexDigit (c.toNat % 16) :: rest) = _
    rw [unquoteRune_u4 _ _ _ _ rest c.toNat (getu4_low _ (by omega))
      (by simp [isSurrogate]; omega)]
    simp
  · have h2028 : getu4 '2' '0' '2' (hexDigit (c.toNat % 16)) = some c.toNat := by
      rcases h9 with h | h <;> subst h <;> decide
    refine ⟨bslash, _, rfl, ?_⟩
    show unquoteRune bslash ('u' :: '2' :: '0' :: '2' :: hexDigit (c.toNat % 16) :: rest) = _
    rw [unquoteRune_u4 _ _ _ _ rest c.toNat h2028
      (by rcases h9 with h | h <;> subst h <;> decide)]
    simp
  · have hq : c ≠ dquote := by
      intro h; rw [h] at h1; exact h1 (by decide)
    have hb : c ≠ bslash := by
      intro h; rw [h] at h1; exact h1 (by decide)
    have : ¬ c.toNat < 0x20 := by omega
    exact ⟨c, rest, rfl, unquoteRune_plain c rest hq hb this⟩

theorem unquoteLoop_piece (p rest out : Str) (ch : Char) (fuel : Nat)
    (hp : ∃ x tail, p ++ rest = x :: tail ∧ unquoteRune x tail = some (ch, rest))
    (hpos : 0 < p.length)
    (hrest : ∀ f, rest.length ≤ f → unquoteLoop f rest = some out)
    (hfuel : (p ++ rest).length ≤ fuel) :
    unquoteLoop fuel (p ++ rest) = some (ch :: out) := by
  rw [List.length_append] at hfuel
  obtain ⟨f, rfl⟩ : ∃ f, fuel = f + 1 := ⟨fuel - 1, by omega⟩
  obtain ⟨x, tail, hx, hr⟩ := hp
  rw [hx, unquoteLoop, hr]
  simp only []
  rw [hrest f (by omega)]
  rfl

theorem unquoteLoop_appendStringFrom (s : GoString) (k fuel : Nat)
    (h : (appendStringFrom k s).length ≤ fuel) :
    unquoteLoop fuel (appendStringFrom k s) = some (runesFrom k s) := by
  induction s generalizing k fuel with
  | nil => cases k <;> cases fuel <;> rfl
  | cons b rest ih =>
    cases k with
    | succ k => exact ih k fuel h
    | zero =>
      rw [appendStringFrom_zero_cons] at h ⊢
      rw [runesFrom_zero_cons]
      split_ifs at h ⊢ with h1 h2
      · rw [decode_size1 b rest h1]
        exact unquoteLoop_piece _ _ _ _ fuel (unquoteRune_appendRune _ _)
          (appendRune_length_pos _) (fun f hf => ih 0 f hf) h
      · rw [h2]
        exact unquoteLoop_piece _ _ _ _ fuel
          ⟨bslash, _, rfl, unquoteRune_u4 _ _ _ _ _ 0xfffd (by decide) (by decide)⟩
          (by decide) (fun f hf => ih 0 f hf) h
      · exact unquoteLoop_piece _ _ _ _ fuel (unquoteRune_appendRune _ _)
          (appendRune_length_pos _) (fun f hf => ih _ f hf) h

theorem unquote_appendStringFrom (s : GoString) :
    unquote (appendStringFrom 0 s) = some (runes s) :=
  unquoteLoop_appendStringFrom s 0 _ (Nat.le_refl _)

theorem ScansAs.before {txt : Str} {v : JSON} {d : Nat} (h : ScansAs txt v d) :
    ScansBefore txt v d := by
  intro ps st c hd hst _
  rw [scan_append, h ps st hd hst]
  rfl

theorem ScansBefore.mono {txt : Str} {v : JSON} {d e : Nat} (h : ScansBefore txt v d)
    (hde : d ≤ e) : ScansBefore txt v e := by
  intro ps st c hd hst hc
  exact h ps st c (by omega) hst hc

theorem step_begin_dquote (ps : List Frame) (st : Step)
    (hst : st = Step.beginValue ∨ st = Step.beginValueOrEmpty ∨ st = Step.beginString ∨
      st = Step.beginStringOrEmpty) :
    scanStep { step := st, parseState := ps } dquote =
      { step := Step.inString [], parseState := ps } := by
  have h1 : isSpace dquote = false := by decide
  have h2 : ¬ dquote = ']' := by decide
  have h3 : ¬ dquote = '{' := by decide
  have h4 : ¬ dquote = '[' := by decide
  have h5 : ¬ dquote = '}' := by decide
  rcases hst with h | h | h | h <;> subst h <;>
    simp [scanStep, stateBeginValue, stateBeginString, h1, h2, h3, h4, h5]

theorem scan_appendString (s : GoString) (ps : List Frame) (st : Step)
    (hst : st = Step.beginValue ∨ st = Step.beginValueOrEmpty ∨ st = Step.beginString ∨
      st = Step.beginStringOrEmpty) :
    scan { step := st, parseState := ps } (appendString s) =
      endOfValue (JSON.string (runes s)) ps := by
  unfold appendString
  rw [scan_cons, step_begin_dquote ps st hst, scan_append, scan_appendStringFrom, scan_cons,
    scan_nil]
  simp [scanStep, unquote_appendStringFrom]

theorem scan_appendString_utf8 (s : Str) (ps : List Frame) (st : Step)
    (hst : st = Step.beginValue ∨ st = Step.beginValueOrEmpty ∨ st = Step.beginString ∨
      st = Step.beginStringOrEmpty) :
    scan { step := st, parseState := ps } (appendString (utf8 s)) =
      endOfValue (JSON.string s) ps := by
  rw [scan_appendString _ ps st hst, runes_utf8]

theorem scansAs_string (s : GoString) : ScansAs (appendString s) (JSON.string (runes s)) 0 := by
  intro ps st _ hst
  exact scan_appendString s ps st (by tauto)

theorem scansAs_null : ScansAs "null".toList JSON.null 0 := by
  intro ps st _ hst
  rcases hst with h | h <;> subst h <;> rfl

theorem scansAs_true : ScansAs "true".toList (JSON.bool true) 0 := by
  intro ps st _ hst
  rcases hst with h | h <;> subst h <;> rfl

theorem scansAs_false : ScansAs "false".toList (JSON.bool false) 0 := by
  intro ps st _ hst
  rcases hst with h | h <;> subst h <;> rfl

theorem intercalate_cons_cons (sep x y : Str) (rest : List Str) :
    sep.intercalate (x :: y :: rest) = x ++ sep ++ sep.intercalate (y :: rest) := by
  simp [List.intercalate, List.intersperse]

theorem intercalate_singleton (sep x : Str) : sep.intercalate [x] = x := by
  simp [List.intercalate, List.intersperse]

theorem step_endValue_array_comma (elems : List JSON) (ps : List Frame) :
    scanStep { step := Step.endValue, parseState := Frame.array elems :: ps } ',' =
      { step := Step.beginValue, parseState := Frame.array elems :: ps } := by
  have h1 : isSpace ',' = false := by decide
  simp [scanStep, stateEndValue, h1]

theorem step_endValue_array_close (elems : List JSON) (ps : List Frame) :
    scanStep { step := Step.endValue, parseState := Frame.array elems :: ps } ']' =
      endOfValue (JSON.array elems) ps := by
  have h1 : isSpace ']' = false := by decide
  have h2 : ¬ ']' = ',' := by decide
  simp [scanStep, stateEndValue, h1, h2]

theorem endOfValue_array (v : JSON) (acc : List JSON) (ps : List Frame) :
    endOfValue v (Frame.array acc :: ps) =
      { step := Step.endValue, parseState := Frame.array (acc ++ [v]) :: ps } := rfl

theorem endOfValue_value (v : JSON) (ms : List (Str × JSON)) (k : Str) (ps : List Frame) :
    endOfValue v (Frame.object ms (some k) :: ps) =
      { step := Step.endValue, parseState := Frame.object (ms ++ [(k, v)]) none :: ps } := rfl

theorem endOfValue_key (k : Str) (ms : List (Str × JSON)) (ps : List Frame) :
    endOfValue (JSON.string k) (Frame.object ms none :: ps) =
      { step := Step.endValue, parseState := Frame.object ms (some k) :: ps } := rfl

theorem scan_elems (d : Nat) (elems : List (Str × JSON)) (hne : elems ≠ [])
    (h : ∀ p ∈ elems, ScansBefore p.1 p.2 d) (acc : List JSON) (ps : List Frame)
    (hd : ps.length + 1 + d ≤ maxNestingDepth) (st : Step)
    (hst : st = Step.beginValue ∨ st = Step.beginValueOrEmpty) :
    scan { step := st, parseState := Frame.array acc :: ps }
        ((",".toList).intercalate (elems.map Prod.fst) ++ [']']) =
      endOfValue (JSON.array (acc ++ elems.map Prod.snd)) ps := by
  induction elems generalizing acc st with
  | nil => exact absurd rfl hne
  | cons p rest ih =>
    have hp := h p (List.mem_cons_self _ _)
    have hlen : (Frame.array acc :: ps).length + d ≤ maxNestingDepth := by
      simp only [List.length_cons]; omega
    cases rest with
    | nil =>
      simp only [List.map_cons, List.map_nil, intercalate_singleton]
      rw [hp _ st ']' hlen hst (by tauto), endOfValue_array, step_endValue_array_close]
    | cons q rest =>
      simp only [List.map_cons, intercalate_cons_cons]
      have : p.1 ++ ",".toList ++ (",".toList).intercalate (q.1 :: List.map Prod.fst rest) ++ [']'] =
          (p.1 ++ [',']) ++ ((",".toList).intercalate (List.map Prod.fst (q :: rest)) ++ [']']) := by
        simp
      rw [this, scan_append, hp _ st ',' hlen hst (by tauto), endOfValue_array,
        step_endValue_array_comma]
      rw [ih (by simp) (fun x hx => h x (List.mem_cons_of_mem _ hx)) _ _ (Or.inl rfl)]
      simp

theorem step_open_array (ps : List Frame) (st : Step)
    (hst : st = Step.beginValue ∨ st = Step.beginValueOrEmpty)
    (hd : ps.length + 1 ≤ maxNestingDepth) :
    scanStep { step := st, parseState := ps } '[' =
      { step := Step.beginValueOrEmpty, parseState := Frame.array [] :: ps } := by
  have h1 : isSpace '[' = false := by decide
  have h2 : ¬ '[' = ']' := by decide
  have h3 : ¬ '[' = '{' := by decide
  rcases hst with h | h <;> subst h <;>
    simp [scanStep, stateBeginValue, pushParseState, h1, h2, h3, hd]

/-- An array of texts that scan as values scans as the array of these values. -/
theorem scansAs_array (d : Nat) (elems : List (Str × JSON))
    (h : ∀ p ∈ elems, ScansBefore p.1 p.2 d) :
    ScansAs ('[' :: ((",".toList).intercalate (elems.map Prod.fst) ++ [']']))
      (JSON.array (elems.map Prod.snd)) (d + 1) := by
  intro ps st hd hst
  rw [scan_cons, step_open_array ps st hst (by omega)]
  by_cases hne : elems = []
  · subst hne
    have h1 : isSpace ']' = false := by decide
    have h2 : ¬ ']' = ',' := by decide
    simp [List.intercalate, scan_cons, scan_nil, scanStep, stateEndValue, h1, h2]
  · rw [scan_elems d elems hne h [] ps (by omega) _ (Or.inr rfl)]
    simp

theorem step_endValue_colon (ms : List (Str × JSON)) (k : Str) (ps : List Frame) :
    scanStep { step := Step.endValue, parseState := Frame.object ms (some k) :: ps } ':' =
      { step := Step.beginValue, parseState := Frame.object ms (some k) :: ps } := by
  have h1 : isSpace ':' = false := by decide
  simp [scanStep, stateEndValue, h1]

theorem step_endValue_object_comma (ms : List (Str × JSON)) (ps : List Frame) :
    scanStep { step := Step.endValue, parseState := Frame.object ms none :: ps } ',' =
      { step := Step.beginString, parseState := Frame.object ms none :: ps } := by
  have h1 : isSpace ',' = false := by decide
  simp [scanStep, stateEndValue, h1]

theorem step_endValue_object_close (ms : List (Str × JSON)) (ps : List Frame) :
    scanStep { step := Step.endValue, parseState := Frame.object ms none :: ps } '}' =
      endOfValue (JSON.object ms) ps := by
  have h1 : isSpace '}' = false := by decide
  have h2 : ¬ '}' = ',' := by decide
  simp [scanStep, stateEndValue, h1, h2]

/-- One member of an object, up to the separator after it. -/
theorem scan_member (d : Nat) (k txt : Str) (v : JSON) (h : ScansBefore txt v d)
    (acc : List (Str × JSON)) (ps : List Frame) (hd : ps.length + 1 + d ≤ maxNestingDepth)
    (st : Step) (hst : st = Step.beginString ∨ st = Step.beginStringOrEmpty) (c : Char)
    (hc : c = ',' ∨ c = ']' ∨ c = '}') :
    scan { step := st, parseState := Frame.object acc none :: ps }
        ((appendString (utf8 k) ++ ':' :: txt) ++ [c]) =
      scanStep { step := Step.endValue, parseState := Frame.object (acc ++ [(k, v)]) none :: ps } c := by
  have hlen : (Frame.object acc (some k) :: ps).length + d ≤ maxNestingDepth := by
    simp only [List.length_cons]; omega
  have : (appendString (utf8 k) ++ ':' :: txt) ++ [c] = appendString (utf8 k) ++ (':' :: (txt ++ [c])) := by simp
  rw [this, scan_append, scan_appendString_utf8 k _ st (by tauto), endOfValue_key, scan_cons,
    step_endValue_colon, h _ _ c hlen (Or.inl rfl) hc, endOfValue_value]

theorem scan_members (d : Nat) (members : List (Str × Str × JSON)) (hne : members ≠ [])
    (h : ∀ m ∈ members, ScansBefore m.2.1 m.2.2 d) (acc : List (Str × JSON)) (ps : List Frame)
    (hd : ps.length + 1 + d ≤ maxNestingDepth) (st : Step)
    (hst : st = Step.beginString ∨ st = Step.beginStringOrEmpty) :
    scan { step := st, parseState := Frame.object acc none :: ps }
        ((",".toList).intercalate (members.map fun m => appendString (utf8 m.1) ++ ':' :: m.2.1) ++ ['}']) =
      endOfValue (JSON.object (acc ++ members.map fun m => (m.1, m.2.2))) ps := by
  induction members generalizing acc st with
  | nil => exact absurd rfl hne
  | cons p rest ih =>
    have hp := h p (List.mem_cons_self _ _)
    cases rest with
    | nil =>
      simp only [List.map_cons, List.map_nil, intercalate_singleton]
      rw [scan_member d p.1 p.2.1 p.2.2 hp acc ps hd st hst '}' (by tauto),
        step_endValue_object_close]
    | cons q rest =>
      simp only [List.map_cons, intercalate_cons_cons]
      have : (appendString (utf8 p.1) ++ ':' :: p.2.1) ++ ",".toList ++
            (",".toList).intercalate ((appendString (utf8 q.1) ++ ':' :: q.2.1) ::
              List.map (fun m => appendString (utf8 m.1) ++ ':' :: m.2.1) rest) ++ ['}'] =
          ((appendString (utf8 p.1) ++ ':' :: p.2.1) ++ [',']) ++
            ((",".toList).intercalate
              (List.map (fun m => appendString (utf8 m.1) ++ ':' :: m.2.1) (q :: rest)) ++ ['}']) := by
        simp
      rw [this, scan_append, scan_member d p.1 p.2.1 p.2.2 hp acc ps hd st hst ',' (by tauto),
        step_endValue_object_comma]
      rw [ih (by simp) (fun x hx => h x (List.mem_cons_of_mem _ hx)) _ _ (Or.inl rfl)]
      simp

theorem step_open_object (ps : List Frame) (st : Step)
    (hst : st = Step.beginValue ∨ st = Step.beginValueOrEmpty)
    (hd : ps.length + 1 ≤ maxNestingDepth) :
    scanStep { step := st, parseState := ps } '{' =
      { step := Step.beginStringOrEmpty, parseState := Frame.object [] none :: ps } := by
  have h1 : isSpace '{' = false := by decide
  have h2 : ¬ '{' = ']' := by decide
  rcases hst with h | h <;> subst h <;>
    simp [scanStep, stateBeginValue, pushParseState, h1, h2, hd]

/-- What the struct encoder writes for fields whose values scan scans as the object of
these members. -/
theorem scansAs_struct (d : Nat) (members : List (Str × Str × JSON))
    (h : ∀ m ∈ members, ScansBefore m.2.1 m.2.2 d) :
    ScansAs (encodeStruct (members.map fun m => (m.1, m.2.1)))
      (JSON.object (members.map fun m => (m.1, m.2.2))) (d + 1) := by
  intro ps st hd hst
  unfold encodeStruct
  rw [scan_cons, step_open_object ps st hst (by omega)]
  by_cases hne : members = []
  · subst hne
    have h1 : isSpace '}' = false := by decide
    have h2 : ¬ '}' = ',' := by decide
    simp [List.intercalate, scan_cons, scan_nil, scanStep, stateEndValue, h1, h2]
  · rw [List.map_map]
    have := scan_members d members hne h [] ps (by omega) _ (Or.inr rfl)
    simp only [List.nil_append] at this
    exact this

/-- A text that scans as a value is read as that value by `readValue`. -/
theorem readValue_of_scansAs {txt : Str} {v : JSON} {d : Nat} (h : ScansAs txt v d)
    (hd : d ≤ maxNestingDepth) : readValue txt = Except.ok v := by
  have := h [] Step.beginValue (by simpa using hd) (Or.inl rfl)
  have hi : scanInit = { step := Step.beginValue, parseState := [] } := rfl
  unfold readValue
  simp only [hi, this]
  rfl

theorem normalizeCRLF_crlf (rest : GoString) :
    normalizeCRLF (13 :: 10 :: rest) = 10 :: normalizeCRLF rest := by
  simp [normalizeCRLF]

theorem normalizeCRLF_other (c : Byte) (s : GoString) (h : ¬ ([13, 10] : GoString).isPrefixOf (c :: s) = true) :
    normalizeCRLF (c :: s) = c :: normalizeCRLF s := by
  cases s with
  | nil => simp [normalizeCRLF]
  | cons d rest =>
    have : ¬ (c = 13 ∧ d = 10) := by
      rintro ⟨rfl, rfl⟩
      exact h (by simp [List.isPrefixOf])
    simp [normalizeCRLF, this]

theorem Index_crlf_none (s : GoString) (h : Index s ([13, 10] : GoString) = none) : normalizeCRLF s = s := by
  induction s with
  | nil => rfl
  | cons c s ih =>
    rw [Index] at h
    split_ifs at h with hp
    rw [normalizeCRLF_other c s hp, ih (by simpa using h)]

theorem Index_crlf_some (s : GoString) (i : Nat) (h : Index s ([13, 10] : GoString) = some i) :
    i + 2 ≤ s.length ∧
      normalizeCRLF s = s.take i ++ 10 :: normalizeCRLF (s.drop (i + 2)) := by
  induction s generalizing i with
  | nil => simp [Index] at h
  | cons c s ih =>
    rw [Index] at h
    split_ifs at h with hp
    · obtain rfl : 0 = i := by simpa using h
      have : ∃ rest, c :: s = 13 :: 10 :: rest := by
        cases s with
        | nil => simp [List.isPrefixOf] at hp
        | cons d rest =>
          simp [List.isPrefixOf] at hp
          exact ⟨rest, by rw [hp.1, hp.2]⟩
      obtain ⟨rest, hr⟩ := this
      rw [hr, normalizeCRLF_crlf]
      simp
    · cases hi : Index s ([13, 10] : GoString) with
      | none => rw [hi] at h; simp at h
      | some j =>
        rw [hi] at h
        simp only [Option.map_some', Option.some.injEq] at h
        subst h
        obtain ⟨h1, h2⟩ := ih j hi
        refine ⟨by simp; omega, ?_⟩
        rw [normalizeCRLF_other c s hp, h2]
        simp

theorem countLoop_acc (substr : GoString) (fuel : Nat) (s : GoString) (n : Nat) :
    countLoop substr fuel s n = n + countLoop substr fuel s 0 := by
  induction fuel generalizing s n with
  | zero => simp [countLoop]
  | succ f ih =>
    simp only [countLoop]
    cases Index s substr with
    | none => simp
    | some i =>
      simp only []
      rw [ih _ (n + 1), ih _ (0 + 1)]
      omega

theorem replaceLoop_crlf (fuel : Nat) (s : GoString) (first : Bool) (h : s.length < fuel) :
    replaceLoop ([13, 10] : GoString) ([10] : GoString) (countLoop ([13, 10] : GoString) fuel s 0) first s =
      normalizeCRLF s := by
  induction fuel generalizing s first with
  | zero => omega
  | succ f ih =>
    simp only [countLoop]
    cases hi : Index s ([13, 10] : GoString) with
    | none =>
      simp only [replaceLoop]
      exact (Index_crlf_none s hi).symm
    | some i =>
      obtain ⟨h1, h2⟩ := Index_crlf_some s i hi
      simp only []
      rw [countLoop_acc, Nat.add_comm, replaceLoop]
      have hne : ¬ (([13, 10] : GoString) = []) := by decide
      simp only [if_neg hne, hi, Option.getD_some]
      have hl : (([13, 10] : GoString)).length = 2 := rfl
      rw [hl, ih (s.drop (i + 2)) false (by simp; omega), h2]
      simp

/-- The refinement of `strings.ReplaceAll` at `\r\n` and `\n`. -/
theorem ReplaceAll_crlf (s : GoString) :
    ReplaceAll s (utf8 "\r\n".toList) (utf8 "\n".toList) = normalizeCRLF s := by
  show ReplaceAll s ([13, 10] : GoString) ([10] : GoString) = normalizeCRLF s
  unfold ReplaceAll Replace
  have h1 : ¬ (([13, 10] : GoString) = ([10] : GoString) ∨ (-1 : Int) = 0) := by decide
  rw [if_neg h1]
  have hne : ¬ (([13, 10] : GoString) = []) := by decide
  simp only [Count, if_neg hne]
  have key := replaceLoop_crlf (s.length + 1) s true (by omega)
  split_ifs with h0 h2
  · rw [h0] at key
    simpa [replaceLoop] using key
  · exact key
  · exact absurd (Or.inl (by decide)) h2

theorem singleton_prefix_iff (b : Byte) (t : GoString) : [b] <+: t ↔ t.head? = some b := by
  cases t with
  | nil => simp
  | cons a t => simp [List.cons_prefix_cons, eq_comm]

/-- The first byte of a normalised text is a line feed exactly when the text starts
with a line feed or with `\r\n`. -/
theorem normalizeCRLF_head (s : GoString) :
    (normalizeCRLF s).head? = some 10 ↔ (s.head? = some 10 ∨ ([13, 10] : GoString) <+: s) := by
  match s with
  | [] => simp [normalizeCRLF]
  | [c] => simp [normalizeCRLF, List.cons_prefix_cons]
  | c :: d :: rest =>
    by_cases h : c = 13 ∧ d = 10
    · obtain ⟨rfl, rfl⟩ := h
      simp [normalizeCRLF, List.cons_prefix_cons]
    · simp only [normalizeCRLF, if_neg h]
      simp only [List.head?_cons, Option.some.injEq, List.cons_prefix_cons, List.nil_prefix,
        and_true]
      constructor
      · intro hc; exact Or.inl hc
      · rintro (hc | ⟨h1, h2⟩)
        · exact hc
        · exact absurd ⟨h1.symm, h2.symm⟩ h

theorem normalizeCRLF_contains_crlf (s : GoString) :
    ([13, 10] : GoString) <:+: normalizeCRLF s ↔ ([13, 13, 10] : GoString) <:+: s := by
  induction s using normalizeCRLF.induct with
  | case1 => simp [normalizeCRLF]
  | case2 c =>
    simp [normalizeCRLF, List.infix_cons_iff, List.cons_prefix_cons]
  | case3 c d rest h ih =>
    obtain ⟨rfl, rfl⟩ := h
    rw [normalizeCRLF_crlf, List.infix_cons_iff, ih]
    simp [List.infix_cons_iff, List.cons_prefix_cons]
  | case4 c d rest h ih =>
    have hn : normalizeCRLF (c :: d :: rest) = c :: normalizeCRLF (d :: rest) := by
      simp only [normalizeCRLF, if_neg h]
    rw [hn, List.infix_cons_iff, List.infix_cons_iff, ih]
    apply or_congr_left
    rw [List.cons_prefix_cons, List.cons_prefix_cons, singleton_prefix_iff,
      normalizeCRLF_head (d :: rest)]
    simp only [List.head?_cons, Option.some.injEq, List.cons_prefix_cons]
    constructor
    · rintro ⟨rfl, h1 | h1⟩
      · exact absurd ⟨rfl, h1⟩ h
      · exact ⟨rfl, h1⟩
    · rintro ⟨rfl, h1⟩
      exact ⟨rfl, Or.inr h1⟩

theorem digitChar_isDigit (d : Nat) (h : d < 10) : isDigit (Char.ofNat (48 + d)) = true := by
  interval_cases d <;> decide

theorem digitChar_val (d : Nat) (h : d < 10) :
    (Char.ofNat (48 + d)).toNat - 48 = d := by
  interval_cases d <;> decide

/-- The digits `decimalDigits` writes: a first digit, not `0` unless the number is 0,
then digits only; and they are worth the number. -/
theorem decimalDigits_spec (fuel n : Nat) (h : n < fuel) :
    ∃ d rest, decimalDigits fuel n = d :: rest ∧ isDigit d = true ∧ rest.all isDigit = true ∧
      (0 < n → ∃ k, 0 < k ∧ k < 10 ∧ d = Char.ofNat (48 + k)) ∧ (n = 0 → d = '0' ∧ rest = []) ∧
      (d :: rest).foldl (fun m c => m * 10 + (c.toNat - '0'.toNat)) 0 = n := by
  have h48 : '0'.toNat = 48 := rfl
  simp only [h48]
  induction fuel generalizing n with
  | zero => omega
  | succ f ih =>
    by_cases h10 : n < 10
    · refine ⟨Char.ofNat (48 + n), [], by simp [decimalDigits, h10],
        digitChar_isDigit n h10, rfl, fun h0 => ⟨n, h0, h10, rfl⟩, ?_, ?_⟩
      · rintro rfl; exact ⟨rfl, rfl⟩
      · simp [digitChar_val n h10]
    · obtain ⟨d, rest, h1, h2, h3, h4, _, h6⟩ := ih (n / 10) (by omega)
      have hmod : n % 10 < 10 := Nat.mod_lt _ (by omega)
      refine ⟨d, rest ++ [Char.ofNat (48 + n % 10)], by simp [decimalDigits, h10, h1],
        h2, ?_, fun _ => h4 (by omega), fun h0 => by omega, ?_⟩
      · simp [h3, digitChar_isDigit _ hmod]
      · rw [← List.cons_append, List.foldl_append, h6]
        simp only [List.foldl_cons, List.foldl_nil, digitChar_val _ hmod]
        omega

theorem parseUint_decimalDigits (n : Nat) : parseUint (decimalDigits (n + 1) n) = some n := by
  obtain ⟨d, rest, h1, h2, h3, _, _, h6⟩ := decimalDigits_spec (n + 1) n (by omega)
  have hall : (d :: rest).all isDigit = true := by simp [h2]; simpa using h3
  unfold parseUint
  rw [h1, if_pos ⟨by simp, hall⟩, h6]

/-- Parsing inverts `FormatInt` on the range of `int64`. -/
theorem ParseInt_FormatInt (n : Int) (hlo : -(2 ^ 63 : Int) ≤ n) (hhi : n < 2 ^ 63) :
    ParseInt (FormatInt n) = some n := by
  obtain ⟨d, rest, h1, h2, _, _, _, _⟩ := decimalDigits_spec (n.natAbs + 1) n.natAbs (by omega)
  have hp := parseUint_decimalDigits n.natAbs
  unfold FormatInt
  by_cases hneg : n < 0
  · rw [if_pos hneg]
    have hle : ¬ (9223372036854775808 < n.natAbs) := by omega
    have habs : -(n.natAbs : Int) = n := by omega
    simp only [ParseInt]
    simp [hp, hle, abs_of_neg hneg]
  · rw [if_neg hneg, h1]
    have hd1 : ¬ (d = '+' ∨ d = '-') := by
      rintro (rfl | rfl) <;> exact absurd h2 (by decide)
    have hd2 : (d == '-') = false := by
      simp only [beq_eq_false_iff_ne, ne_eq]
      exact fun h => hd1 (Or.inr h)
    have hlt : ¬ (n.natAbs ≥ 2 ^ 63) := by omega
    have habs : (n.natAbs : Int) = n := by omega
    simp only [ParseInt, if_neg hd1, hd2, ← h1, hp]
    simp [habs]
    omega

theorem endNumber_eq (lit : Str) (ps : List Frame) (c : Char) :
    endNumber lit ps c = scanStep (endOfValue (JSON.number lit) ps) c := by
  match ps with
  | [] => rfl
  | Frame.array _ :: _ => rfl
  | Frame.object _ (some _) :: _ => rfl
  | Frame.object _ none :: _ => rfl

theorem separator_facts (c : Char) (hc : c = ',' ∨ c = ']' ∨ c = '}') :
    isDigit c = false ∧ c ≠ '.' ∧ ¬ (c = 'e' ∨ c = 'E') := by
  rcases hc with h | h | h <;> subst h <;> decide

theorem scan_s1 (ds : Str) (hds : ds.all isDigit = true) (acc : Str) (ps : List Frame) (c : Char)
    (hc : c = ',' ∨ c = ']' ∨ c = '}') :
    scan { step := Step.s1 acc, parseState := ps } (ds ++ [c]) = endNumber (acc ++ ds) ps c := by
  induction ds generalizing acc with
  | nil =>
    obtain ⟨h1, h2, h3⟩ := separator_facts c hc
    simp [scan_cons, scan_nil, scanStep, state0, h1, h2, h3]
  | cons d ds ih =>
    simp only [List.all_cons, Bool.and_eq_true] at hds
    rw [List.cons_append, scan_cons]
    have : scanStep { step := Step.s1 acc, parseState := ps } d =
        { step := Step.s1 (acc ++ [d]), parseState := ps } := by
      simp [scanStep, hds.1]
    rw [this, ih hds.2]
    simp

theorem scan_s0 (acc : Str) (ps : List Frame) (c : Char) (hc : c = ',' ∨ c = ']' ∨ c = '}') :
    scan { step := Step.s0 acc, parseState := ps } [c] = endNumber acc ps c := by
  obtain ⟨_, h2, h3⟩ := separator_facts c hc
  simp [scan_cons, scan_nil, scanStep, state0, h2, h3]

theorem step_begin_nonzero (k : Nat) (h0 : 0 < k) (h10 : k < 10) (ps : List Frame) (st : Step)
    (hst : st = Step.beginValue ∨ st = Step.beginValueOrEmpty) :
    scanStep { step := st, parseState := ps } (Char.ofNat (48 + k)) =
      { step := Step.s1 [Char.ofNat (48 + k)], parseState := ps } := by
  rcases hst with h | h <;> subst h <;> interval_cases k <;> rfl

theorem step_neg_nonzero (k : Nat) (h0 : 0 < k) (h10 : k < 10) (ps : List Frame) (acc : Str) :
    scanStep { step := Step.neg acc, parseState := ps } (Char.ofNat (48 + k)) =
      { step := Step.s1 (acc ++ [Char.ofNat (48 + k)]), parseState := ps } := by
  interval_cases k <;> rfl

/-- A decimal integer scans as the number with that literal. -/
theorem scansBefore_FormatInt (n : Int) :
    ScansBefore (FormatInt n) (JSON.number (FormatInt n)) 0 := by
  intro ps st c _ hst hc
  obtain ⟨d, rest, h1, _, h3, h4, h5, _⟩ :=
    decimalDigits_spec (n.natAbs + 1) n.natAbs (by omega)
  rw [← endNumber_eq]
  unfold FormatInt
  by_cases hneg : n < 0
  · obtain ⟨k, hk0, hk10, rfl⟩ := h4 (by omega)
    rw [if_pos hneg, h1]
    have hm : scanStep { step := st, parseState := ps } '-' =
        { step := Step.neg ['-'], parseState := ps } := by
      rcases hst with h | h <;> subst h <;> rfl
    rw [List.cons_append, scan_cons, hm, List.cons_append, scan_cons,
      step_neg_nonzero k hk0 hk10, scan_s1 rest h3 _ ps c hc]
    simp
  · rw [if_neg hneg, h1]
    by_cases h0 : n.natAbs = 0
    · obtain ⟨rfl, rfl⟩ := h5 h0
      have hz : scanStep { step := st, parseState := ps } '0' =
          { step := Step.s0 ['0'], parseState := ps } := by
        rcases hst with h | h <;> subst h <;> rfl
      rw [List.cons_append, scan_cons, hz, List.nil_append, scan_s0 _ ps c hc]
    · obtain ⟨k, hk0, hk10, rfl⟩ := h4 (by omega)
      rw [List.cons_append, scan_cons, step_begin_nonzero k hk0 hk10 ps st hst,
        scan_s1 rest h3 _ ps c hc]
      simp

/-! ## The operations, case by case -/

/-- The method `Translate` when the URL does not parse: nothing is sent. -/
theorem Translate_of_urlError (env : Env) (d : Deepl) (text : Slice GoString)
    (sourceLang targetLang glossaryID : GoString) (e : Error)
    (h : env.parseURL (d.baseURL ++ "/translate".toList) = some e) :
    Translate env d text sourceLang targetLang glossaryID =
      { exchanges := [], stdout := [], logged := [], outcome := Outcome.ret none (some e) } := by
  unfold Translate NewRequest
  simp only [h]

/-- The method `Translate` when the URL parses: one request is sent, and the outcome is read off the
answer. -/
theorem Translate_of_url (env : Env) (d : Deepl) (text : Slice GoString)
    (sourceLang targetLang glossaryID : GoString)
    (h : env.parseURL (d.baseURL ++ "/translate".toList) = none) :
    Translate env d text sourceLang targetLang glossaryID =
      { exchanges := [(translateRequest d text sourceLang targetLang glossaryID,
          env.Do (translateRequest d text sourceLang targetLang glossaryID))],
        stdout := [], logged := [],
        outcome :=
          match (env.Do (translateRequest d text sourceLang targetLang glossaryID)).2 with
          | some err => Outcome.ret none (some err)
          | none =>
            match (env.Do (translateRequest d text sourceLang targetLang glossaryID)).1 with
            | none => Outcome.panic
            | some resp =>
              match TranslationResponse.Decode resp.Body TranslationResponse.zero with
              | Except.error err => Outcome.ret none (some err)
              | Except.ok responseData => Outcome.ret responseData.Translations none } := by
  unfold Translate NewRequest
  simp only [h]
  rfl

/-- The method `GetGlossaries` when the URL does not parse: nothing is sent. -/
theorem GetGlossaries_of_urlError (env : Env) (d : Deepl) (e : Error)
    (h : env.parseURL (d.baseURL ++ "/glossaries".toList) = some e) :
    GetGlossaries env d =
      { exchanges := [], stdout := [], logged := [], outcome := Outcome.ret [] (some e) } := by
  unfold GetGlossaries NewRequest
  simp only [h]

/-- The method `GetGlossaries` when the URL parses. -/
theorem GetGlossaries_of_url (env : Env) (d : Deepl)
    (h : env.parseURL (d.baseURL ++ "/glossaries".toList) = none) :
    GetGlossaries env d =
      { exchanges := [(getGlossariesRequest d, env.Do (getGlossariesRequest d))],
        stdout := [], logged := [],
        outcome :=
          match (env.Do (getGlossariesRequest d)).2 with
          | some err => Outcome.ret [] (some err)
          | none =>
            match (env.Do (getGlossariesRequest d)).1 with
            | none => Outcome.panic
            | some _ => Outcome.ret [] none } := by
  unfold GetGlossaries NewRequest
  simp only [h]
  rfl

/-- The method `CreateGlossary` when the stream fails: nothing is printed or sent. -/
theorem CreateGlossary_of_readError (env : Env) (d : Deepl) (name sourceLang targetLang : GoString)
    (entriesTSV : Reader) (e : Error) (h : entriesTSV.err = some e) :
    CreateGlossary env d name sourceLang targetLang entriesTSV =
      { exchanges := [], stdout := [], logged := [], outcome := Outcome.ret none (some e) } := by
  unfold CreateGlossary Copy
  simp only [h]

/-- The method `CreateGlossary` when the URL does not parse: the payload is printed, nothing is sent. -/
theorem CreateGlossary_of_urlError (env : Env) (d : Deepl) (name sourceLang targetLang : GoString)
    (entriesTSV : Reader) (e : Error) (hr : entriesTSV.err = none)
    (h : env.parseURL (d.baseURL ++ "/glossaries".toList) = some e) :
    CreateGlossary env d name sourceLang targetLang entriesTSV =
      { exchanges := [],
        stdout := [(glossaryPayload name sourceLang targetLang entriesTSV.data).Marshal],
        logged := [], outcome := Outcome.ret none (some e) } := by
  unfold CreateGlossary Copy NewRequest
  simp only [hr, h]
  rfl

/-- The method `CreateGlossary` when the stream is read and the URL parses. -/
theorem CreateGlossary_of_url (env : Env) (d : Deepl) (name sourceLang targetLang : GoString)
    (entriesTSV : Reader) (hr : entriesTSV.err = none)
    (h : env.parseURL (d.baseURL ++ "/glossaries".toList) = none) :
    CreateGlossary env d name sourceLang targetLang entriesTSV =
      match (env.Do (createGlossaryRequest d name sourceLang targetLang entriesTSV.data)).1 with
      | none =>
        { exchanges := [(createGlossaryRequest d name sourceLang targetLang entriesTSV.data,
            env.Do (createGlossaryRequest d name sourceLang targetLang entriesTSV.data))],
          stdout := [(glossaryPayload name sourceLang targetLang entriesTSV.data).Marshal],
          logged := [], outcome := Outcome.panic }
      | some resp =>
        { exchanges := [(createGlossaryRequest d name sourceLang targetLang entriesTSV.data,
            env.Do (createGlossaryRequest d name sourceLang targetLang entriesTSV.data))],
          stdout := [(glossaryPayload name sourceLang targetLang entriesTSV.data).Marshal],
          logged := ["Response: ".toList ++ resp.Status],
          outcome :=
            match (env.Do
              (createGlossaryRequest d name sourceLang targetLang entriesTSV.data)).2 with
            | some err => Outcome.ret none (some err)
            | none =>
              match Glossary.Decode resp.Body Glossary.zero with
              | Except.error err => Outcome.ret none (some err)
              | Except.ok createdGlossary => Outcome.ret (some createdGlossary) none } := by
  unfold CreateGlossary Copy NewRequest
  simp only [hr, h]
  rfl

/-- An exchange of `Translate` is the request it builds with the answer to it. -/
theorem Translate_exchange (env : Env) (d : Deepl) (text : Slice GoString)
    (sourceLang targetLang glossaryID : GoString) (req : Request)
    (ans : Option Response × Option Error)
    (h : (Translate env d text sourceLang targetLang glossaryID).exchanges = [(req, ans)]) :
    env.parseURL (d.baseURL ++ "/translate".toList) = none ∧
    req = translateRequest d text sourceLang targetLang glossaryID ∧
    env.Do (translateRequest d text sourceLang targetLang glossaryID) = ans := by
  cases hp : env.parseURL (d.baseURL ++ "/translate".toList) with
  | some e =>
    rw [Translate_of_urlError env d text sourceLang targetLang glossaryID e hp] at h
    exact absurd h (by simp)
  | none =>
    rw [Translate_of_url env d text sourceLang targetLang glossaryID hp] at h
    simp only [List.cons.injEq, Prod.mk.injEq, and_true] at h
    exact ⟨rfl, h.1.symm, h.2⟩

/-- An exchange of `GetGlossaries` is the request it builds with the answer to it. -/
theorem GetGlossaries_exchange (env : Env) (d : Deepl) (req : Request)
    (ans : Option Response × Option Error)
    (h : (GetGlossaries env d).exchanges = [(req, ans)]) :
    env.parseURL (d.baseURL ++ "/glossaries".toList) = none ∧
    req = getGlossariesRequest d ∧ env.Do (getGlossariesRequest d) = ans := by
  cases hp : env.parseURL (d.baseURL ++ "/glossaries".toList) with
  | some e =>
    rw [GetGlossaries_of_urlError env d e hp] at h
    exact absurd h (by simp)
  | none =>
    rw [GetGlossaries_of_url env d hp] at h
    simp only [List.cons.injEq, Prod.mk.injEq, and_true] at h
    exact ⟨rfl, h.1.symm, h.2⟩

/-- An exchange of `CreateGlossary` is the request it builds with the answer to it; the
stream was read to its end. -/
theorem CreateGlossary_exchange (env : Env) (d : Deepl) (name sourceLang targetLang : GoString)
    (entriesTSV : Reader) (req : Request) (ans : Option Response × Option Error)
    (h : (CreateGlossary env d name sourceLang targetLang entriesTSV).exchanges = [(req, ans)]) :
    entriesTSV.err = none ∧
    env.parseURL (d.baseURL ++ "/glossaries".toList) = none ∧
    req = createGlossaryRequest d name sourceLang targetLang entriesTSV.data ∧
    env.Do (createGlossaryRequest d name sourceLang targetLang entriesTSV.data) = ans := by
  cases hr : entriesTSV.err with
  | some e =>
    rw [CreateGlossary_of_readError env d name sourceLang targetLang entriesTSV e hr] at h
    exact absurd h (by simp)
  | none =>
    cases hp : env.parseURL (d.baseURL ++ "/glossaries".toList) with
    | some e =>
      rw [CreateGlossary_of_urlError env d name sourceLang targetLang entriesTSV e hr hp] at h
      exact absurd h (by simp)
    | none =>
      rw [CreateGlossary_of_url env d name sourceLang targetLang entriesTSV hr hp] at h
      cases hd : (env.Do (createGlossaryRequest d name sourceLang targetLang entriesTSV.data)).1 with
      | none =>
        simp only [hd, List.cons.injEq, Prod.mk.injEq, and_true] at h
        exact ⟨rfl, rfl, h.1.symm, h.2⟩
      | some resp =>
        simp only [hd, List.cons.injEq, Prod.mk.injEq, and_true] at h
        exact ⟨rfl, rfl, h.1.symm, h.2⟩

/-! ## Reading back JSON text -/

theorem scansBefore_appendString (s : GoString) (d : Nat) :
    ScansBefore (appendString s) (JSON.string (runes s)) d :=
  (scansAs_string s).before.mono (Nat.zero_le d)

theorem scansBefore_appendString_utf8 (s : Str) (d : Nat) :
    ScansBefore (appendString (utf8 s)) (JSON.string s) d := by
  have h := scansBefore_appendString (utf8 s) d
  rwa [runes_utf8] at h

theorem scansAs_encodeStringSlice (text : Slice GoString) :
    ScansAs (encodeStringSlice text) (textJSON text) 1 := by
  cases text with
  | none =>
    intro ps st _ hst
    exact scansAs_null ps st (Nat.le_trans (Nat.le_add_right _ _) ‹_›) hst
  | some xs =>
    have h := scansAs_array 0 (xs.map fun s => (appendString s, JSON.string (runes s)))
      (by
        intro p hp
        obtain ⟨s, _, rfl⟩ := List.mem_map.mp hp
        exact scansBefore_appendString s 0)
    simp only [List.map_map] at h
    exact h

/-- Reading back what `json.Marshal` writes for a `TranslationPayload`. -/
theorem readValue_TranslationPayload (p : TranslationPayload) :
    readValue p.Marshal = Except.ok p.toJSON := by
  have h := scansAs_struct 1
    [("text".toList, encodeStringSlice p.Text, textJSON p.Text),
     ("target_lang".toList, appendString p.TargetLang, JSON.string (runes p.TargetLang)),
     ("source_lang".toList, appendString p.SourceLang, JSON.string (runes p.SourceLang)),
     ("glossary_id".toList, appendString p.GlossaryID, JSON.string (runes p.GlossaryID))]
    (by
      intro m hm
      simp only [List.mem_cons, List.mem_singleton, List.not_mem_nil, or_false] at hm
      rcases hm with rfl | rfl | rfl | rfl
      · exact (scansAs_encodeStringSlice p.Text).before
      · exact scansBefore_appendString _ 1
      · exact scansBefore_appendString _ 1
      · exact scansBefore_appendString _ 1)
  exact readValue_of_scansAs h (by decide)

/-- Reading back what `json.Marshal` writes for a `CreateGlossaryPayload`. -/
theorem readValue_CreateGlossaryPayload (p : CreateGlossaryPayload) :
    readValue p.Marshal = Except.ok p.toJSON := by
  have h := scansAs_struct 0
    [("name".toList, appendString p.Name, JSON.string (runes p.Name)),
     ("source_lang".toList, appendString p.SourceLang, JSON.string (runes p.SourceLang)),
     ("target_lang".toList, appendString p.TargetLang, JSON.string (runes p.TargetLang)),
     ("entries_format".toList, appendString p.EntriesFormat, JSON.string (runes p.EntriesFormat)),
     ("entries".toList, appendString p.Entries, JSON.string (runes p.Entries))]
    (by
      intro m hm
      simp only [List.mem_cons, List.mem_singleton, List.not_mem_nil, or_false] at hm
      rcases hm with rfl | rfl | rfl | rfl | rfl <;> exact scansBefore_appendString _ 0)
  exact readValue_of_scansAs h (by decide)

theorem scansAs_Translation (t : Translation) : ScansAs t.Marshal t.toJSON 1 :=
  scansAs_struct 0
    [("detected_source_language".toList, appendString (utf8 t.DetectedSourceLanguage),
        JSON.string t.DetectedSourceLanguage),
     ("text".toList, appendString (utf8 t.Text), JSON.string t.Text)]
    (by
      intro m hm
      simp only [List.mem_cons, List.mem_singleton, List.not_mem_nil, or_false] at hm
      rcases hm with rfl | rfl <;> exact scansBefore_appendString_utf8 _ 0)

/-- Reading back the JSON text of a response with the given translations. -/
theorem readValue_translationsText (ts : List Translation) :
    readValue (translationsText ts) = Except.ok (translationsJSON ts) := by
  have harr := scansAs_array 1 (ts.map fun t => (t.Marshal, t.toJSON))
    (by
      intro p hp
      obtain ⟨t, _, rfl⟩ := List.mem_map.mp hp
      exact (scansAs_Translation t).before)
  simp only [List.map_map] at harr
  have h := scansAs_struct 2
    [("translations".toList,
      '[' :: ((",".toList).intercalate (ts.map Translation.Marshal) ++ [']']),
      JSON.array (ts.map Translation.toJSON))]
    (by
      intro m hm
      simp only [List.mem_singleton] at hm
      subst hm
      exact harr.before)
  exact readValue_of_scansAs h (by decide)

/-- Reading back the JSON text of a `Glossary`. -/
theorem readValue_Glossary (g : Glossary) :
    readValue g.Marshal = Except.ok g.toJSON := by
  have hb : ScansBefore (if g.Ready then "true".toList else "false".toList)
      (JSON.bool g.Ready) 0 := by
    cases g.Ready
    · exact scansAs_false.before
    · exact scansAs_true.before
  have h := scansAs_struct 0
    [("glossary_id".toList, appendString (utf8 g.ID), JSON.string g.ID),
     ("name".toList, appendString (utf8 g.Name), JSON.string g.Name),
     ("ready".toList, if g.Ready then "true".toList else "false".toList, JSON.bool g.Ready),
     ("source_lang".toList, appendString (utf8 g.SourceLang), JSON.string g.SourceLang),
     ("target_lang".toList, appendString (utf8 g.TargetLang), JSON.string g.TargetLang),
     ("creation_time".toList, appendString (utf8 g.CreationTime), JSON.string g.CreationTime),
     ("entry_count".toList, FormatInt g.EntryCount, JSON.number (FormatInt g.EntryCount))]
    (by
      intro m hm
      simp only [List.mem_cons, List.mem_singleton, List.not_mem_nil, or_false] at hm
      rcases hm with rfl | rfl | rfl | rfl | rfl | rfl | rfl
      · exact scansBefore_appendString_utf8 _ 0
      · exact scansBefore_appendString_utf8 _ 0
      · exact hb
      · exact scansBefore_appendString_utf8 _ 0
      · exact scansBefore_appendString_utf8 _ 0
      · exact scansBefore_appendString_utf8 _ 0
      · exact scansBefore_FormatInt _)
  exact readValue_of_scansAs h (by decide)

/-- Storing members that each set one field to its final value copies these fields. -/
theorem storeMembers_copy {α : Type} (names : List Str)
    (set : α → Nat → JSON → Except Error α) (member : Nat → Str × JSON) (copy : α → Nat → α)
    (n : Nat)
    (hfind : ∀ i, i < n → findField names (member i).1 = some i)
    (hset : ∀ cur i, i < n → set cur i (member i).2 = Except.ok (copy cur i))
    (idxs : List Nat) (hidx : ∀ i ∈ idxs, i < n) (cur : α) :
    storeMembers names set (idxs.map member) cur = Except.ok (idxs.foldl copy cur) := by
  induction idxs generalizing cur with
  | nil => rfl
  | cons i idxs ih =>
    have hi := hidx i (List.mem_cons_self _ _)
    have hm : member i = ((member i).1, (member i).2) := rfl
    rw [List.map_cons, hm, storeMembers, hfind i hi]
    simp only [hset cur i hi, List.foldl_cons]
    exact ih (fun j hj => hidx j (List.mem_cons_of_mem _ hj)) _

theorem Glossary.copyField_comm_glossary (g cur : Glossary) (i j : Nat) :
    g.copyField (g.copyField cur i) j = g.copyField (g.copyField cur j) i := by
  rcases i with _ | _ | _ | _ | _ | _ | _ | i <;>
    rcases j with _ | _ | _ | _ | _ | _ | _ | j <;> rfl

theorem Glossary.foldl_copyField_glossary (g cur : Glossary) (idxs : List Nat)
    (h : idxs.Perm [0, 1, 2, 3, 4, 5, 6]) : idxs.foldl g.copyField cur = g := by
  haveI : RightCommutative g.copyField := ⟨fun c i j => Glossary.copyField_comm_glossary g c i j⟩
  rw [h.foldl_eq]
  rfl

theorem Translation.copyField_comm_translation (t cur : Translation) (i j : Nat) :
    t.copyField (t.copyField cur i) j = t.copyField (t.copyField cur j) i := by
  rcases i with _ | _ | i <;> rcases j with _ | _ | j <;> rfl

theorem Translation.foldl_copyField_translation (t cur : Translation) (idxs : List Nat)
    (h : idxs.Perm [0, 1]) : idxs.foldl t.copyField cur = t := by
  haveI : RightCommutative t.copyField := ⟨fun c i j => Translation.copyField_comm_translation t c i j⟩
  rw [h.foldl_eq]
  rfl

/-- Storing the members of a glossary, in any order, gives the glossary. -/
theorem storeMembers_Glossary (g cur : Glossary)
    (hlo : -(2 ^ 63 : Int) ≤ g.EntryCount) (hhi : g.EntryCount < 2 ^ 63)
    (idxs : List Nat) (h : idxs.Perm [0, 1, 2, 3, 4, 5, 6]) :
    storeStruct Glossary.fieldNames Glossary.setField (JSON.object (idxs.map g.member)) cur =
      Except.ok g := by
  have hlt : ∀ i ∈ idxs, i < 7 := by
    intro i hi
    have := h.subset hi
    simp only [List.mem_cons, List.mem_singleton, List.not_mem_nil, or_false] at this
    omega
  rw [storeStruct, storeMembers_copy Glossary.fieldNames Glossary.setField g.member
    g.copyField 7 ?_ ?_ idxs hlt cur, Glossary.foldl_copyField_glossary g cur idxs h]
  · intro i hi
    interval_cases i <;> (simp only [Glossary.member]; decide)
  · intro c i hi
    interval_cases i <;>
      simp [Glossary.setField, Glossary.member, Glossary.copyField, storeString, storeBool,
        storeInt, ParseInt_FormatInt _ hlo hhi, Except.map]

/-- Storing the members of a translation, in any order, gives the translation. -/
theorem storeMembers_Translation (t cur : Translation) (idxs : List Nat)
    (h : idxs.Perm [0, 1]) :
    Translation.store (JSON.object (idxs.map t.member)) cur = Except.ok t := by
  have hlt : ∀ i ∈ idxs, i < 2 := by
    intro i hi
    have := h.subset hi
    simp only [List.mem_cons, List.mem_singleton, List.not_mem_nil, or_false] at this
    omega
  rw [Translation.store, storeStruct, storeMembers_copy Translation.fieldNames
    Translation.setField t.member t.copyField 2 ?_ ?_ idxs hlt cur,
    Translation.foldl_copyField_translation t cur idxs h]
  · intro i hi
    interval_cases i <;> (simp only [Translation.member]; decide)
  · intro c i hi
    interval_cases i <;>
      simp [Translation.setField, Translation.member, Translation.copyField, storeString,
        Except.map]

theorem storeElems_of_forall₂ (elems : List JSON) (xs : List Translation)
    (h : List.Forall₂ (fun e t => Translation.store e Translation.zero = Except.ok t) elems xs) :
    storeElems Translation.zero Translation.store elems [] = Except.ok xs := by
  induction h with
  | nil => rfl
  | cons he _ ih => simp only [storeElems, List.headD_nil, List.tail_nil, he, ih]

theorem storeElems_forall₂ (elems : List JSON) (xs : List Translation)
    (h : storeElems Translation.zero Translation.store elems [] = Except.ok xs) :
    List.Forall₂ (fun e t => Translation.store e Translation.zero = Except.ok t) elems xs := by
  induction elems generalizing xs with
  | nil =>
    simp only [storeElems, Except.ok.injEq] at h
    subst h
    exact List.Forall₂.nil
  | cons e es ih =>
    simp only [storeElems, List.headD_nil, List.tail_nil] at h
    cases he : Translation.store e Translation.zero with
    | error err => simp [he] at h
    | ok x =>
      cases hes : storeElems Translation.zero Translation.store es [] with
      | error err => simp [he, hes] at h
      | ok ys =>
        simp only [he, hes, Except.ok.injEq] at h
        subst h
        exact List.Forall₂.cons he (ih ys hes)

theorem findField_translations (k : Str) :
    findField TranslationResponse.fieldNames k = none ∨
      findField TranslationResponse.fieldNames k = some 0 := by
  simp only [findField, fieldIndex, TranslationResponse.fieldNames]
  split_ifs <;> simp

theorem translationsValues_cons_none (k : Str) (v : JSON) (ms : List (Str × JSON))
    (h : findField TranslationResponse.fieldNames k = none) :
    translationsValues (JSON.object ((k, v) :: ms)) = translationsValues (JSON.object ms) := by
  simp [translationsValues, h]

theorem translationsValues_cons_some (k : Str) (v : JSON) (ms : List (Str × JSON))
    (h : findField TranslationResponse.fieldNames k = some 0) :
    translationsValues (JSON.object ((k, v) :: ms)) = v :: translationsValues (JSON.object ms) := by
  simp [translationsValues, h]

theorem storeElems_forall₂_prev {α : Type} (zero : α) (store : JSON → α → Except Error α)
    (elems : List JSON) (backing xs : List α)
    (h : storeElems zero store elems backing = Except.ok xs) :
    List.Forall₂ (fun e x => ∃ prev, store e prev = Except.ok x) elems xs := by
  induction elems generalizing backing xs with
  | nil =>
    simp only [storeElems, Except.ok.injEq] at h
    subst h
    exact List.Forall₂.nil
  | cons e es ih =>
    rw [storeElems] at h
    cases he : store e (backing.headD zero) with
    | error err => rw [he] at h; simp at h
    | ok x =>
      rw [he] at h
      cases hes : storeElems zero store es backing.tail with
      | error err => rw [hes] at h; simp at h
      | ok ys =>
        rw [hes] at h
        simp only [Except.ok.injEq] at h
        subst h
        exact List.Forall₂.cons ⟨_, he⟩ (ih _ ys hes)

theorem storeSlice_ok {α : Type} (zero : α) (store : JSON → α → Except Error α)
    (w : JSON) (cur : Slice α) (spare : List α) (st : Slice α × List α)
    (h : storeSlice zero store w cur spare = Except.ok st) :
    (w = JSON.null ∧ st = (none, [])) ∨
    ∃ elems xs, w = JSON.array elems ∧
      storeElems zero store elems (cur.getD [] ++ spare) = Except.ok xs ∧ st.1 = some xs := by
  cases w with
  | null =>
    simp only [storeSlice, Except.ok.injEq] at h
    exact Or.inl ⟨rfl, h.symm⟩
  | array elems =>
    right
    simp only [storeSlice] at h
    cases hs : storeElems zero store elems (cur.getD [] ++ spare) with
    | error err => simp [hs] at h
    | ok xs =>
      refine ⟨elems, xs, rfl, hs, ?_⟩
      simp only [hs] at h
      split_ifs at h with h0
      · simp only [Except.ok.injEq] at h
        rw [← h]
        simp only [List.length_eq_zero] at h0
        rw [h0]
      · simp only [Except.ok.injEq] at h
        rw [← h]
  | bool b => simp [storeSlice] at h
  | number lit => simp [storeSlice] at h
  | string s => simp [storeSlice] at h
  | object ms => simp [storeSlice] at h

theorem storeMembers_translations (ms : List (Str × JSON))
    (st st1 : TranslationResponse × List Translation)
    (h : storeMembers TranslationResponse.fieldNames TranslationResponse.setField ms st =
      Except.ok st1) :
    ((translationsValues (JSON.object ms)).getLast? = none → st1 = st) ∧
    (∀ w, (translationsValues (JSON.object ms)).getLast? = some w →
      (w = JSON.null ∧ st1.1.Translations = none) ∨
      ∃ elems xs, w = JSON.array elems ∧ st1.1.Translations = some xs ∧
        List.Forall₂ (fun e x => ∃ prev, Translation.store e prev = Except.ok x) elems xs ∧
        ((translationsValues (JSON.object ms)).length = 1 →
          st.1.Translations.getD [] ++ st.2 = [] →
          List.Forall₂ (fun e x => Translation.store e Translation.zero = Except.ok x)
            elems xs)) := by
  induction ms generalizing st with
  | nil =>
    simp only [storeMembers, Except.ok.injEq] at h
    subst h
    simp [translationsValues]
  | cons m ms ih =>
    obtain ⟨k, v⟩ := m
    rw [storeMembers] at h
    rcases findField_translations k with hk | hk
    · rw [hk] at h
      simp only [] at h
      rw [translationsValues_cons_none k v ms hk]
      exact ih st h
    · rw [hk] at h
      simp only [] at h
      rw [translationsValues_cons_some k v ms hk]
      cases hset : TranslationResponse.setField st 0 v with
      | error err => rw [hset] at h; simp at h
      | ok st2 =>
        rw [hset] at h
        simp only [] at h
        obtain ⟨ih1, ih2⟩ := ih st2 h
        simp only [TranslationResponse.setField] at hset
        cases hsl : storeSlice Translation.zero Translation.store v st.1.Translations st.2 with
        | error err => rw [hsl] at hset; simp [Except.map] at hset
        | ok sl =>
          rw [hsl] at hset
          simp only [Except.map, Except.ok.injEq] at hset
          cases hvals : translationsValues (JSON.object ms) with
          | nil =>
            rw [hvals] at ih1
            have e1 : st1 = st2 := ih1 rfl
            refine ⟨by simp, ?_⟩
            intro w hw
            simp only [List.getLast?_singleton, Option.some.injEq] at hw
            subst hw
            rcases storeSlice_ok _ _ _ _ _ _ hsl with ⟨hn, hst⟩ | ⟨elems, xs, he, hse, hxs⟩
            · left
              refine ⟨hn, ?_⟩
              rw [e1, ← hset, hst]
            · right
              refine ⟨elems, xs, he, ?_, storeElems_forall₂_prev _ _ _ _ _ hse, ?_⟩
              · rw [e1, ← hset]
                exact hxs
              · intro _ hb
                rw [hb] at hse
                exact storeElems_forall₂ elems xs hse
          | cons a vals =>
            rw [hvals] at ih2
            refine ⟨by simp [List.getLast?_cons_cons], ?_⟩
            intro w hw
            rw [List.getLast?_cons_cons] at hw
            rcases ih2 w hw with hnull | ⟨elems, xs, he, hxs, hf, _⟩
            · exact Or.inl hnull
            · exact Or.inr ⟨elems, xs, he, hxs, hf, fun hl => absurd hl (by simp)⟩

/-- Decoding a body that is an object with one `translations` array, into the zero value. -/
theorem Decode_translations (body : Str) (elems : List JSON) (ts : List Translation)
    (hbody : readValue body =
      Except.ok (JSON.object [("translations".toList, JSON.array elems)]))
    (hstore : storeElems Translation.zero Translation.store elems [] = Except.ok ts) :
    TranslationResponse.Decode body TranslationResponse.zero =
      Except.ok { Translations := some ts } := by
  have h0 : findField TranslationResponse.fieldNames "translations".toList = some 0 := by decide
  simp only [TranslationResponse.Decode, hbody, storeStruct, storeMembers, h0,
    TranslationResponse.setField, TranslationResponse.zero, storeSlice, Option.getD_none,
    List.append_nil, hstore]
  cases ts with
  | nil => rfl
  | cons t ts => rfl

/-- A call of `Translate` that returns no error has sent its request, got a response and
no error from the transport, and decoded the body of the response. -/
theorem Translate_success (env : Env) (d : Deepl) (text : Slice GoString)
    (sourceLang targetLang glossaryID : GoString) (result : Slice Translation)
    (hret : (Translate env d text sourceLang targetLang glossaryID).outcome =
      Outcome.ret result none) :
    ∃ resp,
      (Translate env d text sourceLang targetLang glossaryID).exchanges =
        [(translateRequest d text sourceLang targetLang glossaryID, (some resp, none))] ∧
      TranslationResponse.Decode resp.Body TranslationResponse.zero =
        Except.ok { Translations := result } := by
  cases hp : env.parseURL (d.baseURL ++ "/translate".toList) with
  | some e =>
    rw [Translate_of_urlError env d text sourceLang targetLang glossaryID e hp] at hret
    simp at hret
  | none =>
    rw [Translate_of_url env d text sourceLang targetLang glossaryID hp] at hret ⊢
    simp only [] at hret ⊢
    generalize env.Do (translateRequest d text sourceLang targetLang glossaryID) = answer at *
    obtain ⟨r, e⟩ := answer
    cases e with
    | some err => simp at hret
    | none =>
      cases r with
      | none => simp at hret
      | some resp =>
        refine ⟨resp, rfl, ?_⟩
        simp only [] at hret
        cases hd : TranslationResponse.Decode resp.Body TranslationResponse.zero with
        | error err => rw [hd] at hret; simp at hret
        | ok responseData =>
          rw [hd] at hret
          simp only [Outcome.ret.injEq, and_true] at hret
          rw [← hret]

/-- What decoding a body into the zero value of `TranslationResponse` gives. -/
theorem Decode_result (body : Str) (result : Slice Translation)
    (h : TranslationResponse.Decode body TranslationResponse.zero =
      Except.ok { Translations := result }) :
    ∃ v, readValue body = Except.ok v ∧
      (v = JSON.null ∨ ∃ ms, v = JSON.object ms) ∧
      ((translationsValues v).getLast? = none → result = none) ∧
      (∀ w, (translationsValues v).getLast? = some w →
        (w = JSON.null ∧ result = none) ∨
        ∃ elems xs, w = JSON.array elems ∧ result = some xs ∧ xs.length = elems.length ∧
          List.Forall₂ (fun e x => ∃ prev, Translation.store e prev = Except.ok x) elems xs ∧
          ((translationsValues v).length = 1 →
            List.Forall₂ (fun e x => Translation.store e Translation.zero = Except.ok x)
              elems xs)) := by
  unfold TranslationResponse.Decode at h
  cases hv : readValue body with
  | error err => rw [hv] at h; simp at h
  | ok v =>
    rw [hv] at h
    simp only [] at h
    refine ⟨v, rfl, ?_⟩
    cases hs : storeStruct TranslationResponse.fieldNames TranslationResponse.setField v
        (TranslationResponse.zero, []) with
    | error err => rw [hs] at h; simp [Except.map] at h
    | ok st =>
      rw [hs] at h
      simp only [Except.map, Except.ok.injEq] at h
      cases v with
      | null =>
        simp only [storeStruct, Except.ok.injEq] at hs
        have : result = none := by
          have := congrArg TranslationResponse.Translations h
          rw [← hs] at this
          exact this.symm
        exact ⟨Or.inl rfl, fun _ => this, fun w hw => by simp [translationsValues] at hw⟩
      | object ms =>
        simp only [storeStruct] at hs
        obtain ⟨h1, h2⟩ := storeMembers_translations ms _ _ hs
        have hres : st.1.Translations = result := congrArg TranslationResponse.Translations h
        refine ⟨Or.inr ⟨ms, rfl⟩, ?_, ?_⟩
        · intro hn
          rw [← hres, h1 hn]
          rfl
        · intro w hw
          rcases h2 w hw with ⟨hn, hr⟩ | ⟨elems, xs, he, hxs, hf, hz⟩
          · exact Or.inl ⟨hn, by rw [← hres, hr]⟩
          · exact Or.inr ⟨elems, xs, he, by rw [← hres, hxs], hf.length_eq.symm, hf,
              fun hl => hz hl rfl⟩
      | bool b => simp [storeStruct] at hs
      | number lit => simp [storeStruct] at hs
      | string s => simp [storeStruct] at hs
      | array elems => simp [storeStruct] at hs

theorem translateRequest_headers (d : Deepl) (text : Slice GoString)
    (sourceLang targetLang glossaryID : GoString) :
    (translateRequest d text sourceLang targetLang glossaryID).Header =
      [("Authorization".toList, "DeepL-Auth-Key ".toList ++ d.apiKey),
       ("Content-Type".toList, "application/json".toList)] := by
  simp [translateRequest, Request.setHeader]

theorem createGlossaryRequest_headers (d : Deepl) (name sourceLang targetLang content : GoString) :
    (createGlossaryRequest d name sourceLang targetLang content).Header =
      [("Authorization".toList, "DeepL-Auth-Key ".toList ++ d.apiKey),
       ("Content-Type".toList, "application/json".toList)] := by
  simp [createGlossaryRequest, Request.setHeader]

/-! ## The claims -/

/-- C1: `New(baseURL, apiKey)` fails exactly when `baseURL` is empty or ends with the
character `/`; it then returns no client. In every other case it returns, with no error,
the client holding the given `baseURL` and `apiKey`. So `New("", key)` and
`New("http://x/", key)` fail and `New("http://x", key)` succeeds. -/
theorem New_fails_iff (baseURL apiKey : Str) :
    ((New baseURL apiKey).2.isSome = true ↔ (baseURL = [] ∨ baseURL.getLast? = some '/')) ∧
    (New baseURL apiKey).1 =
      (if baseURL = [] ∨ baseURL.getLast? = some '/' then none
       else some { baseURL := baseURL, apiKey := apiKey }) ∧
    ((New baseURL apiKey).1.isSome = true ↔ (New baseURL apiKey).2 = none) ∧
    (New "".toList apiKey).2.isSome = true ∧
    (New "http://x/".toList apiKey).2.isSome = true ∧
    New "http://x".toList apiKey =
      (some { baseURL := "http://x".toList, apiKey := apiKey }, none) := by
  have hs := hasSuffix_singleton baseURL '/'
  refine ⟨?_, ?_, ?_, by simp [New], by simp [New, HasSuffix], by simp [New, HasSuffix]⟩
  · unfold New
    by_cases h1 : baseURL = []
    · simp [h1]
    · by_cases h2 : HasSuffix baseURL ['/'] = true
      · have := hs.mp h2
        simp [h1, h2, this]
      · have h3 : ¬ baseURL.getLast? = some '/' := fun h => h2 (hs.mpr h)
        simp [h1, h2, h3]
  · unfold New
    by_cases h1 : baseURL = []
    · simp [h1]
    · by_cases h2 : HasSuffix baseURL ['/'] = true
      · have := hs.mp h2
        simp [h1, h2, this]
      · have h3 : ¬ baseURL.getLast? = some '/' := fun h => h2 (hs.mpr h)
        simp [h1, h2, h3]
  · unfold New
    by_cases h1 : baseURL = []
    · simp [h1]
    · by_cases h2 : HasSuffix baseURL ['/'] = true
      · simp [h1, h2]
      · simp [h1, h2]

/-- C2: when the transport returns an error and no response, `Translate` and
`GetGlossaries` return that error, with a nil slice and an empty string, while
`CreateGlossary` panics: it reads the status of the nil response before it looks at the
error. -/
theorem transport_failure (env : Env) (d : Deepl) (text : Slice GoString)
    (sourceLang targetLang glossaryID name : GoString) (entriesTSV : Reader) (err : Error)
    (hurl : ∀ url, env.parseURL url = none)
    (hdo : ∀ req, env.Do req = (none, some err))
    (hread : entriesTSV.err = none) :
    (Translate env d text sourceLang targetLang glossaryID).outcome =
      Outcome.ret none (some err) ∧
    (GetGlossaries env d).outcome = Outcome.ret [] (some err) ∧
    (CreateGlossary env d name sourceLang targetLang entriesTSV).outcome = Outcome.panic := by
  refine ⟨?_, ?_, ?_⟩
  · simp [Translate, NewRequest, hurl, hdo]
  · simp [GetGlossaries, NewRequest, hurl, hdo]
  · simp [CreateGlossary, Copy, hread, NewRequest, hurl, hdo]

/-- The failing input of C2: an unreachable host. -/
theorem transport_failure_witness :
    (Translate (Env.failing (Error.transport "connection refused")) exampleClient
        (some [utf8 "Hello".toList]) [] (utf8 "DE".toList) []).outcome =
      Outcome.ret none (some (Error.transport "connection refused")) ∧
    (GetGlossaries (Env.failing (Error.transport "connection refused")) exampleClient).outcome =
      Outcome.ret [] (some (Error.transport "connection refused")) ∧
    (CreateGlossary (Env.failing (Error.transport "connection refused")) exampleClient
        (utf8 "g".toList) (utf8 "EN".toList) (utf8 "DE".toList)
        { data := utf8 "hello\tHallo\r\n".toList, err := none }).outcome = Outcome.panic :=
  transport_failure (Env.failing (Error.transport "connection refused")) exampleClient
    (some [utf8 "Hello".toList]) [] (utf8 "DE".toList) [] (utf8 "g".toList)
    { data := utf8 "hello\tHallo\r\n".toList, err := none } (Error.transport "connection refused")
    (fun _ => rfl) (fun _ => rfl) rfl

/-- C3, as stated, fails in two ways. With well-formed UTF-8 arguments, the nil slice of
texts gives a body whose `text` field is `null`, not a JSON array. With a slice that is not
nil, a text that is not well-formed UTF-8 (the single byte `0xff`) is not what the array
holds: no JSON string has that byte as its UTF-8 encoding, and the body holds U+FFFD. -/
theorem Translate_request_counterexample :
    (¬ ∀ (env : Env) (d : Deepl) (text : Slice Str) (sourceLang targetLang glossaryID : Str)
        (req : Request) (ans : Option Response × Option Error),
        (Translate env d (text.map fun xs => xs.map utf8) (utf8 sourceLang) (utf8 targetLang)
          (utf8 glossaryID)).exchanges = [(req, ans)] →
        ∃ body, req.Body = some body ∧
          readValue body = Except.ok (JSON.object
            [("text".toList, JSON.array ((text.getD []).map JSON.string)),
             ("target_lang".toList, JSON.string targetLang),
             ("source_lang".toList, JSON.string sourceLang),
             ("glossary_id".toList, JSON.string glossaryID)])) ∧
    (¬ ∀ (env : Env) (d : Deepl) (text : List GoString)
        (sourceLang targetLang glossaryID : GoString)
        (req : Request) (ans : Option Response × Option Error),
        (Translate env d (some text) sourceLang targetLang glossaryID).exchanges = [(req, ans)] →
        ∃ (body : Str) (xs : List Str) (t s g : Str), req.Body = some body ∧
          readValue body = Except.ok (JSON.object
            [("text".toList, JSON.array (xs.map JSON.string)),
             ("target_lang".toList, JSON.string t),
             ("source_lang".toList, JSON.string s),
             ("glossary_id".toList, JSON.string g)]) ∧
          xs.map utf8 = text ∧ utf8 t = targetLang ∧ utf8 s = sourceLang ∧
          utf8 g = glossaryID) := by
  constructor
  · intro h
    obtain ⟨body, hb, hr⟩ := h
      (Env.answering { Status := "200 OK".toList, StatusCode := 200, Body := [] })
      exampleClient none [] "DE".toList []
      (translateRequest exampleClient none [] (utf8 "DE".toList) []) _ rfl
    have hbody : body =
        "\x7b\"text\":null,\"target_lang\":\"DE\",\"source_lang\":\"\",\"glossary_id\":\"\"\x7d".toList := by
      have : (translateRequest exampleClient none [] (utf8 "DE".toList) []).Body =
          some "\x7b\"text\":null,\"target_lang\":\"DE\",\"source_lang\":\"\",\"glossary_id\":\"\"\x7d".toList := by
        decide
      rw [this] at hb
      exact (Option.some.inj hb).symm
    subst hbody
    have hv : readValue
        "\x7b\"text\":null,\"target_lang\":\"DE\",\"source_lang\":\"\",\"glossary_id\":\"\"\x7d".toList =
        Except.ok (JSON.object
          [("text".toList, JSON.null), ("target_lang".toList, JSON.string "DE".toList),
           ("source_lang".toList, JSON.string []), ("glossary_id".toList, JSON.string [])]) := rfl
    rw [hv] at hr
    simp at hr
  · intro h
    obtain ⟨body, xs, t, s, g, hb, hr, hx, _⟩ := h
      (Env.answering { Status := "200 OK".toList, StatusCode := 200, Body := [] })
      exampleClient [[0xff]] [] (utf8 "DE".toList) []
      (translateRequest exampleClient (some [[0xff]]) [] (utf8 "DE".toList) []) _ rfl
    have hbody : body =
        "\x7b\"text\":[\"\\ufffd\"],\"target_lang\":\"DE\",\"source_lang\":\"\",\"glossary_id\":\"\"\x7d".toList := by
      have : (translateRequest exampleClient (some [[0xff]]) [] (utf8 "DE".toList) []).Body =
          some "\x7b\"text\":[\"\\ufffd\"],\"target_lang\":\"DE\",\"source_lang\":\"\",\"glossary_id\":\"\"\x7d".toList := by
        decide
      rw [this] at hb
      exact (Option.some.inj hb).symm
    subst hbody
    have hv : readValue
        "\x7b\"text\":[\"\\ufffd\"],\"target_lang\":\"DE\",\"source_lang\":\"\",\"glossary_id\":\"\"\x7d".toList =
        Except.ok (JSON.object
          [("text".toList, JSON.array [JSON.string [Char.ofNat 0xfffd]]),
           ("target_lang".toList, JSON.string "DE".toList),
           ("source_lang".toList, JSON.string []), ("glossary_id".toList, JSON.string [])]) := rfl
    rw [hv] at hr
    simp only [Except.ok.injEq, JSON.object.injEq, List.cons.injEq, Prod.mk.injEq,
      JSON.array.injEq, true_and, and_true] at hr
    have hxs := hr.1
    match xs, hxs, hx with
    | [x], hxs, hx =>
      simp only [List.map_cons, List.map_nil, List.cons.injEq, JSON.string.injEq, and_true] at hxs
      subst hxs
      exact absurd hx (by decide)

/-- C3, amended: the request `Translate` sends is a `POST` to `baseURL` followed by
`/translate`, with the header `Authorization` equal to `DeepL-Auth-Key ` followed by
`apiKey` and the header `Content-Type` equal to `application/json`. Its body is what
`json.Marshal` writes for the payload, a JSON object with exactly the four members `text`,
`target_lang`, `source_lang`, `glossary_id`, in that order, all present also when empty,
where `text` is `null` when the slice of texts is nil and otherwise the array of the input
strings in input order, and where every string is written with its code points, U+FFFD
standing for each byte that is not part of a well-formed UTF-8 sequence. So for a slice
that is not nil and arguments that are well-formed UTF-8 the members are the arguments
unchanged. The text of the body is spelled out member by member. For the texts `Hello`, `World`, the empty source language, the target language
`DE` and the empty glossary the body is the text of the specification. -/
theorem Translate_request (env : Env) (d : Deepl) (text : Slice GoString)
    (sourceLang targetLang glossaryID : GoString) (req : Request)
    (ans : Option Response × Option Error)
    (h : (Translate env d text sourceLang targetLang glossaryID).exchanges = [(req, ans)]) :
    req.Method = "POST".toList ∧
    req.URL = d.baseURL ++ "/translate".toList ∧
    req.Header = [("Authorization".toList, "DeepL-Auth-Key ".toList ++ d.apiKey),
                  ("Content-Type".toList, "application/json".toList)] ∧
    req.headerValue "Authorization".toList = some ("DeepL-Auth-Key ".toList ++ d.apiKey) ∧
    req.headerValue "Content-Type".toList = some "application/json".toList ∧
    req.Body = some (TranslationPayload.Marshal
      { Text := text, TargetLang := targetLang, SourceLang := sourceLang,
        GlossaryID := glossaryID }) ∧
    TranslationPayload.Marshal
      { Text := text, TargetLang := targetLang, SourceLang := sourceLang,
        GlossaryID := glossaryID } =
      "\x7b\"text\":".toList ++ encodeStringSlice text ++
        ",\"target_lang\":".toList ++ appendString targetLang ++
        ",\"source_lang\":".toList ++ appendString sourceLang ++
        ",\"glossary_id\":".toList ++ appendString glossaryID ++ "\x7d".toList ∧
    readValue (TranslationPayload.Marshal
      { Text := text, TargetLang := targetLang, SourceLang := sourceLang,
        GlossaryID := glossaryID }) =
      Except.ok (JSON.object
        [("text".toList,
            match text with
            | none => JSON.null
            | some xs => JSON.array (xs.map fun x => JSON.string (runes x))),
         ("target_lang".toList, JSON.string (runes targetLang)),
         ("source_lang".toList, JSON.string (runes sourceLang)),
         ("glossary_id".toList, JSON.string (runes glossaryID))]) ∧
    (∀ (xs : List Str) (t s g : Str),
      text = some (xs.map utf8) → targetLang = utf8 t → sourceLang = utf8 s →
      glossaryID = utf8 g →
      readValue (TranslationPayload.Marshal
        { Text := text, TargetLang := targetLang, SourceLang := sourceLang,
          GlossaryID := glossaryID }) =
        Except.ok (JSON.object
          [("text".toList, JSON.array (xs.map JSON.string)),
           ("target_lang".toList, JSON.string t),
           ("source_lang".toList, JSON.string s),
           ("glossary_id".toList, JSON.string g)])) ∧
    TranslationPayload.Marshal
      { Text := some [utf8 "Hello".toList, utf8 "World".toList], TargetLang := utf8 "DE".toList,
        SourceLang := [], GlossaryID := [] } =
      "\x7b\"text\":[\"Hello\",\"World\"],\"target_lang\":\"DE\",\"source_lang\":\"\",\"glossary_id\":\"\"\x7d".toList := by
  obtain ⟨_, hreq, _⟩ := Translate_exchange env d text sourceLang targetLang glossaryID req ans h
  subst hreq
  have hh := translateRequest_headers d text sourceLang targetLang glossaryID
  refine ⟨rfl, rfl, hh, ?_, ?_, rfl, ?_, ?_, ?_, by decide⟩
  · simp [Request.headerValue, hh]
  · simp [Request.headerValue, hh]
  · have k1 : appendString (utf8 "text".toList) = "\"text\"".toList := by decide
    have k2 : appendString (utf8 "target_lang".toList) = "\"target_lang\"".toList := by decide
    have k3 : appendString (utf8 "source_lang".toList) = "\"source_lang\"".toList := by decide
    have k4 : appendString (utf8 "glossary_id".toList) = "\"glossary_id\"".toList := by decide
    simp only [TranslationPayload.Marshal, encodeStruct, List.map_cons, List.map_nil, k1, k2,
      k3, k4]
    simp [List.intercalate]
  · rw [readValue_TranslationPayload]
    cases text <;> rfl
  · rintro xs t s g rfl rfl rfl rfl
    rw [readValue_TranslationPayload]
    simp only [TranslationPayload.toJSON, textJSON, runes_utf8, List.map_map]
    have : (fun x => JSON.string (runes x)) ∘ utf8 = JSON.string := by
      funext x
      simp only [Function.comp_apply, runes_utf8]
    rw [this]

/-- C3, amended, at the input of the specification: the request that is sent. -/
theorem Translate_request_witness :
    (Translate (Env.failing (Error.transport "connection refused")) exampleClient
        (some [utf8 "Hello".toList, utf8 "World".toList]) [] (utf8 "DE".toList) []).exchanges =
      [({ Method := "POST".toList, URL := "http://x/translate".toList,
          Header := [("Authorization".toList, "DeepL-Auth-Key key".toList),
                     ("Content-Type".toList, "application/json".toList)],
          Body := some "\x7b\"text\":[\"Hello\",\"World\"],\"target_lang\":\"DE\",\"source_lang\":\"\",\"glossary_id\":\"\"\x7d".toList },
        (none, some (Error.transport "connection refused")))] ∧
    ({ Method := "POST".toList, URL := "http://x/translate".toList,
       Header := [("Authorization".toList, "DeepL-Auth-Key key".toList),
                  ("Content-Type".toList, "application/json".toList)],
       Body := some "\x7b\"text\":[\"Hello\",\"World\"],\"target_lang\":\"DE\",\"source_lang\":\"\",\"glossary_id\":\"\"\x7d".toList } :
        Request).Method = "POST".toList :=
  ⟨rfl,
    (Translate_request (Env.failing (Error.transport "connection refused")) exampleClient
      (some [utf8 "Hello".toList, utf8 "World".toList]) [] (utf8 "DE".toList) []
      { Method := "POST".toList, URL := "http://x/translate".toList,
        Header := [("Authorization".toList, "DeepL-Auth-Key key".toList),
                   ("Content-Type".toList, "application/json".toList)],
        Body := some "\x7b\"text\":[\"Hello\",\"World\"],\"target_lang\":\"DE\",\"source_lang\":\"\",\"glossary_id\":\"\"\x7d".toList }
      (none, some (Error.transport "connection refused")) rfl).1⟩

/-- C5, as stated, fails: for the stream content `\r\r\n` the `entries` field of the payload
is `\r\n`. -/
theorem CreateGlossary_entries_counterexample :
    ¬ ∀ (env : Env) (d : Deepl) (name sourceLang targetLang : GoString) (entriesTSV : Reader)
        (req : Request) (ans : Option Response × Option Error),
        (CreateGlossary env d name sourceLang targetLang entriesTSV).exchanges = [(req, ans)] →
        ∃ p : CreateGlossaryPayload, req.Body = some p.Marshal ∧
          ¬ utf8 "\r\n".toList <:+: p.Entries := by
  intro h
  obtain ⟨p, hb, hn⟩ := h
    (Env.answering { Status := "200 OK".toList, StatusCode := 200, Body := [] })
    exampleClient (utf8 "g".toList) (utf8 "EN".toList) (utf8 "DE".toList)
    { data := utf8 "\r\r\n".toList, err := none }
    (createGlossaryRequest exampleClient (utf8 "g".toList) (utf8 "EN".toList) (utf8 "DE".toList)
      (utf8 "\r\r\n".toList)) _ rfl
  have hq : (createGlossaryRequest exampleClient (utf8 "g".toList) (utf8 "EN".toList)
      (utf8 "DE".toList) (utf8 "\r\r\n".toList)).Body =
      some (CreateGlossaryPayload.Marshal
        { Name := utf8 "g".toList, SourceLang := utf8 "EN".toList, TargetLang := utf8 "DE".toList,
          EntriesFormat := utf8 "tsv".toList, Entries := utf8 "\r\n".toList }) := by decide
  rw [hq] at hb
  have hm := congrArg readValue (Option.some.inj hb)
  rw [readValue_CreateGlossaryPayload, readValue_CreateGlossaryPayload] at hm
  simp only [CreateGlossaryPayload.toJSON, Except.ok.injEq, JSON.object.injEq, List.cons.injEq,
    Prod.mk.injEq, JSON.string.injEq, true_and, and_true] at hm
  apply hn
  have he : runes p.Entries = ['\r', '\n'] := by
    rw [← hm.2.2.2.2]
    decide
  rw [runes_eq_crlf p.Entries he]
  exact List.infix_refl _

/-- C5, amended: the `entries` field of the payload `CreateGlossary` serialises is the stream
content with every `\r\n` replaced by `\n` in one pass from left to right. It contains no
`\r\n` exactly when the content contains no `\r\r\n`; so `hello\tHallo\r\nworld\tWelt\r\n` is
fully normalised. -/
theorem CreateGlossary_entries (env : Env) (d : Deepl) (name sourceLang targetLang : GoString)
    (entriesTSV : Reader) (req : Request) (ans : Option Response × Option Error)
    (h : (CreateGlossary env d name sourceLang targetLang entriesTSV).exchanges = [(req, ans)]) :
    req.Body = some (CreateGlossaryPayload.Marshal
      { Name := name, SourceLang := sourceLang, TargetLang := targetLang,
        EntriesFormat := utf8 "tsv".toList,
        Entries := ReplaceAll entriesTSV.data (utf8 "\r\n".toList) (utf8 "\n".toList) }) ∧
    (¬ utf8 "\r\n".toList <:+:
        ReplaceAll entriesTSV.data (utf8 "\r\n".toList) (utf8 "\n".toList) ↔
      ¬ utf8 "\r\r\n".toList <:+: entriesTSV.data) ∧
    ¬ utf8 "\r\n".toList <:+:
      ReplaceAll (utf8 "hello\tHallo\r\nworld\tWelt\r\n".toList) (utf8 "\r\n".toList)
        (utf8 "\n".toList) := by
  obtain ⟨_, _, hreq, _⟩ :=
    CreateGlossary_exchange env d name sourceLang targetLang entriesTSV req ans h
  subst hreq
  refine ⟨rfl, ?_, by decide⟩
  rw [ReplaceAll_crlf]
  exact not_congr (normalizeCRLF_contains_crlf entriesTSV.data)

/-- C5, amended, at the stream content of the specification. -/
theorem CreateGlossary_entries_witness :
    (¬ utf8 "\r\n".toList <:+:
        ReplaceAll (utf8 "hello\tHallo\r\nworld\tWelt\r\n".toList) (utf8 "\r\n".toList)
          (utf8 "\n".toList) ↔
      ¬ utf8 "\r\r\n".toList <:+: utf8 "hello\tHallo\r\nworld\tWelt\r\n".toList) :=
  (CreateGlossary_entries
    (Env.answering { Status := "200 OK".toList, StatusCode := 200, Body := [] })
    exampleClient (utf8 "g".toList) (utf8 "EN".toList) (utf8 "DE".toList)
    { data := utf8 "hello\tHallo\r\nworld\tWelt\r\n".toList, err := none }
    (createGlossaryRequest exampleClient (utf8 "g".toList) (utf8 "EN".toList) (utf8 "DE".toList)
      (utf8 "hello\tHallo\r\nworld\tWelt\r\n".toList))
    (some { Status := "200 OK".toList, StatusCode := 200, Body := [] }, none) rfl).2.1

/-- C6, as stated, fails: for a stream whose content is not well-formed UTF-8 (the single
byte `0xff`) the `entries` member of the body is not the content; no JSON string has that
byte as its UTF-8 encoding, and the body holds U+FFFD. -/
theorem CreateGlossary_request_counterexample :
    ¬ ∀ (env : Env) (d : Deepl) (name sourceLang targetLang : GoString) (entriesTSV : Reader)
        (req : Request) (ans : Option Response × Option Error),
        (CreateGlossary env d name sourceLang targetLang entriesTSV).exchanges = [(req, ans)] →
        ∃ (body : Str) (n s t e : Str), req.Body = some body ∧
          readValue body = Except.ok (JSON.object
            [("name".toList, JSON.string n),
             ("source_lang".toList, JSON.string s),
             ("target_lang".toList, JSON.string t),
             ("entries_format".toList, JSON.string "tsv".toList),
             ("entries".toList, JSON.string e)]) ∧
          utf8 n = name ∧ utf8 s = sourceLang ∧ utf8 t = targetLang ∧
          utf8 e = normalizeCRLF entriesTSV.data := by
  intro h
  obtain ⟨body, n, s, t, e, hb, hr, _, _, _, he⟩ := h
    (Env.answering { Status := "200 OK".toList, StatusCode := 200, Body := [] })
    exampleClient (utf8 "g".toList) (utf8 "EN".toList) (utf8 "DE".toList)
    { data := [0xff], err := none }
    (createGlossaryRequest exampleClient (utf8 "g".toList) (utf8 "EN".toList) (utf8 "DE".toList)
      [0xff]) _ rfl
  have hbody : body =
      "\x7b\"name\":\"g\",\"source_lang\":\"EN\",\"target_lang\":\"DE\",\"entries_format\":\"tsv\",\"entries\":\"\\ufffd\"\x7d".toList := by
    have : (createGlossaryRequest exampleClient (utf8 "g".toList) (utf8 "EN".toList)
        (utf8 "DE".toList) [0xff]).Body =
        some "\x7b\"name\":\"g\",\"source_lang\":\"EN\",\"target_lang\":\"DE\",\"entries_format\":\"tsv\",\"entries\":\"\\ufffd\"\x7d".toList := by
      decide
    rw [this] at hb
    exact (Option.some.inj hb).symm
  subst hbody
  have hv : readValue
      "\x7b\"name\":\"g\",\"source_lang\":\"EN\",\"target_lang\":\"DE\",\"entries_format\":\"tsv\",\"entries\":\"\\ufffd\"\x7d".toList =
      Except.ok (JSON.object
        [("name".toList, JSON.string "g".toList),
         ("source_lang".toList, JSON.string "EN".toList),
         ("target_lang".toList, JSON.string "DE".toList),
         ("entries_format".toList, JSON.string "tsv".toList),
         ("entries".toList, JSON.string [Char.ofNat 0xfffd])]) := rfl
  rw [hv] at hr
  simp only [Except.ok.injEq, JSON.object.injEq, List.cons.injEq, Prod.mk.injEq,
    JSON.string.injEq, true_and, and_true] at hr
  rw [← hr.2.2.2] at he
  exact absurd he (by decide)

/-- C6, amended: for a stream that is read to its end, the request `CreateGlossary` sends is
a `POST` to `baseURL` followed by `/glossaries` with the headers `Authorization` and
`Content-Type` of `Translate`. Its body is exactly what `json.Marshal` writes for the
payload: the JSON object with the members `name`, `source_lang`, `target_lang` holding the
arguments, `entries_format` holding `tsv`, and `entries` holding the stream content with
every `\r\n`, from left to right, replaced by `\n` and every other byte kept; every string
is written with its code points, U+FFFD standing for each byte that is not part of a
well-formed UTF-8 sequence. So when the arguments and the normalised content are
well-formed UTF-8 the members hold them unchanged. For the content
`hello\tHallo\r\nworld\tWelt\r\n` the entries are `hello\tHallo\nworld\tWelt\n`. -/
theorem CreateGlossary_request (env : Env) (d : Deepl) (name sourceLang targetLang : GoString)
    (entriesTSV : Reader) (req : Request) (ans : Option Response × Option Error)
    (h : (CreateGlossary env d name sourceLang targetLang entriesTSV).exchanges = [(req, ans)]) :
    req.Method = "POST".toList ∧
    req.URL = d.baseURL ++ "/glossaries".toList ∧
    req.Header = [("Authorization".toList, "DeepL-Auth-Key ".toList ++ d.apiKey),
                  ("Content-Type".toList, "application/json".toList)] ∧
    req.headerValue "Authorization".toList = some ("DeepL-Auth-Key ".toList ++ d.apiKey) ∧
    req.headerValue "Content-Type".toList = some "application/json".toList ∧
    req.Body = some (CreateGlossaryPayload.Marshal
      { Name := name, SourceLang := sourceLang, TargetLang := targetLang,
        EntriesFormat := utf8 "tsv".toList, Entries := normalizeCRLF entriesTSV.data }) ∧
    CreateGlossaryPayload.Marshal
      { Name := name, SourceLang := sourceLang, TargetLang := targetLang,
        EntriesFormat := utf8 "tsv".toList, Entries := normalizeCRLF entriesTSV.data } =
      "\x7b\"name\":".toList ++ appendString name ++
        ",\"source_lang\":".toList ++ appendString sourceLang ++
        ",\"target_lang\":".toList ++ appendString targetLang ++
        ",\"entries_format\":\"tsv\",\"entries\":".toList ++
        appendString (normalizeCRLF entriesTSV.data) ++ "\x7d".toList ∧
    readValue (CreateGlossaryPayload.Marshal
      { Name := name, SourceLang := sourceLang, TargetLang := targetLang,
        EntriesFormat := utf8 "tsv".toList, Entries := normalizeCRLF entriesTSV.data }) =
      Except.ok (JSON.object
        [("name".toList, JSON.string (runes name)),
         ("source_lang".toList, JSON.string (runes sourceLang)),
         ("target_lang".toList, JSON.string (runes targetLang)),
         ("entries_format".toList, JSON.string "tsv".toList),
         ("entries".toList, JSON.string (runes (normalizeCRLF entriesTSV.data)))]) ∧
    (∀ n s t e : Str,
      name = utf8 n → sourceLang = utf8 s → targetLang = utf8 t →
      normalizeCRLF entriesTSV.data = utf8 e →
      readValue (CreateGlossaryPayload.Marshal
        { Name := name, SourceLang := sourceLang, TargetLang := targetLang,
          EntriesFormat := utf8 "tsv".toList, Entries := normalizeCRLF entriesTSV.data }) =
        Except.ok (JSON.object
          [("name".toList, JSON.string n),
           ("source_lang".toList, JSON.string s),
           ("target_lang".toList, JSON.string t),
           ("entries_format".toList, JSON.string "tsv".toList),
           ("entries".toList, JSON.string e)])) ∧
    normalizeCRLF (utf8 "hello\tHallo\r\nworld\tWelt\r\n".toList) =
      utf8 "hello\tHallo\nworld\tWelt\n".toList := by
  obtain ⟨_, _, hreq, _⟩ :=
    CreateGlossary_exchange env d name sourceLang targetLang entriesTSV req ans h
  subst hreq
  have hh := createGlossaryRequest_headers d name sourceLang targetLang entriesTSV.data
  have htsv : runes (utf8 "tsv".toList) = "tsv".toList := runes_utf8 _
  refine ⟨rfl, rfl, hh, ?_, ?_, ?_, ?_, ?_, ?_, by decide⟩
  · simp [Request.headerValue, hh]
  · simp [Request.headerValue, hh]
  · simp only [createGlossaryRequest, Request.setHeader, glossaryPayload, ReplaceAll_crlf]
  · have k1 : appendString (utf8 "name".toList) = "\"name\"".toList := by decide
    have k2 : appendString (utf8 "source_lang".toList) = "\"source_lang\"".toList := by decide
    have k3 : appendString (utf8 "target_lang".toList) = "\"target_lang\"".toList := by decide
    have k4 : appendString (utf8 "entries_format".toList) = "\"entries_format\"".toList := by
      decide
    have k5 : appendString (utf8 "entries".toList) = "\"entries\"".toList := by decide
    have k6 : appendString (utf8 "tsv".toList) = "\"tsv\"".toList := by decide
    simp only [CreateGlossaryPayload.Marshal, encodeStruct, List.map_cons, List.map_nil, k1, k2,
      k3, k4, k5, k6]
    simp [List.intercalate]
  · rw [readValue_CreateGlossaryPayload]
    simp only [CreateGlossaryPayload.toJSON, htsv]
  · rintro n s t e rfl rfl rfl he
    rw [readValue_CreateGlossaryPayload]
    simp only [CreateGlossaryPayload.toJSON, htsv, he, runes_utf8]

/-- C6, amended, at the stream content of the specification: the request that is sent. -/
theorem CreateGlossary_request_witness :
    (CreateGlossary (Env.answering { Status := "200 OK".toList, StatusCode := 200, Body := [] })
        exampleClient (utf8 "g".toList) (utf8 "EN".toList) (utf8 "DE".toList)
        { data := utf8 "hello\tHallo\r\nworld\tWelt\r\n".toList, err := none }).exchanges =
      [({ Method := "POST".toList, URL := "http://x/glossaries".toList,
          Header := [("Authorization".toList, "DeepL-Auth-Key key".toList),
                     ("Content-Type".toList, "application/json".toList)],
          Body := some "\x7b\"name\":\"g\",\"source_lang\":\"EN\",\"target_lang\":\"DE\",\"entries_format\":\"tsv\",\"entries\":\"hello\\tHallo\\nworld\\tWelt\\n\"\x7d".toList },
        (some { Status := "200 OK".toList, StatusCode := 200, Body := [] }, none))] ∧
    ({ Method := "POST".toList, URL := "http://x/glossaries".toList,
       Header := [("Authorization".toList, "DeepL-Auth-Key key".toList),
                  ("Content-Type".toList, "application/json".toList)],
       Body := some "\x7b\"name\":\"g\",\"source_lang\":\"EN\",\"target_lang\":\"DE\",\"entries_format\":\"tsv\",\"entries\":\"hello\\tHallo\\nworld\\tWelt\\n\"\x7d".toList } :
        Request).Method = "POST".toList :=
  ⟨rfl,
    (CreateGlossary_request
      (Env.answering { Status := "200 OK".toList, StatusCode := 200, Body := [] })
      exampleClient (utf8 "g".toList) (utf8 "EN".toList) (utf8 "DE".toList)
      { data := utf8 "hello\tHallo\r\nworld\tWelt\r\n".toList, err := none }
      { Method := "POST".toList, URL := "http://x/glossaries".toList,
        Header := [("Authorization".toList, "DeepL-Auth-Key key".toList),
                   ("Content-Type".toList, "application/json".toList)],
        Body := some "\x7b\"name\":\"g\",\"source_lang\":\"EN\",\"target_lang\":\"DE\",\"entries_format\":\"tsv\",\"entries\":\"hello\\tHallo\\nworld\\tWelt\\n\"\x7d".toList }
      (some { Status := "200 OK".toList, StatusCode := 200, Body := [] }, none) rfl).1⟩

/-- C4: when the transport answers the request of `Translate` with a response whose body
is a JSON object with a `translations` array of objects, each with the string fields
`detected_source_language` and `text` of a translation (in either order), `Translate`
returns, with no error, one `Translation` per element, in the order of the array, holding
the values of these fields. The JSON text Go's encoder writes for a list of translations
is such a body. -/
theorem Translate_decodes (env : Env) (d : Deepl) (text : Slice GoString)
    (sourceLang targetLang glossaryID : GoString) (req : Request) (resp : Response)
    (elems : List JSON) (ts : List Translation)
    (hex : (Translate env d text sourceLang targetLang glossaryID).exchanges =
      [(req, (some resp, none))])
    (hbody : readValue resp.Body =
      Except.ok (JSON.object [("translations".toList, JSON.array elems)]))
    (helems : List.Forall₂
      (fun e t => ∃ order : List Nat, order.Perm [0, 1] ∧ e = JSON.object (order.map t.member))
      elems ts) :
    (Translate env d text sourceLang targetLang glossaryID).outcome =
      Outcome.ret (some ts) none ∧
    readValue (translationsText ts) =
      Except.ok (JSON.object [("translations".toList,
        JSON.array (ts.map fun t => JSON.object ([0, 1].map t.member)))]) := by
  obtain ⟨hp, _, hdo⟩ := Translate_exchange env d text sourceLang targetLang glossaryID req _ hex
  refine ⟨?_, readValue_translationsText ts⟩
  have hstore : storeElems Translation.zero Translation.store elems [] = Except.ok ts := by
    apply storeElems_of_forall₂
    refine helems.imp ?_
    rintro e t ⟨order, hperm, rfl⟩
    exact storeMembers_Translation t _ order hperm
  rw [Translate_of_url env d text sourceLang targetLang glossaryID hp]
  simp only [hdo, Decode_translations resp.Body elems ts hbody hstore]

/-- C4 at the response of the specification: the two records `(EN, Hallo)` and
`(EN, Welt)`, in that order. -/
theorem Translate_decodes_witness :
    (Translate
        (Env.answering
          { Status := "200 OK".toList, StatusCode := 200,
            Body := "\x7b\"translations\":[\x7b\"detected_source_language\":\"EN\",\"text\":\"Hallo\"\x7d,\x7b\"detected_source_language\":\"EN\",\"text\":\"Welt\"\x7d]\x7d".toList })
        exampleClient (some [utf8 "Hello".toList, utf8 "World".toList]) [] (utf8 "DE".toList)
        []).outcome =
      Outcome.ret
        (some [{ DetectedSourceLanguage := "EN".toList, Text := "Hallo".toList },
               { DetectedSourceLanguage := "EN".toList, Text := "Welt".toList }]) none :=
  (Translate_decodes
    (Env.answering
      { Status := "200 OK".toList, StatusCode := 200,
        Body := "\x7b\"translations\":[\x7b\"detected_source_language\":\"EN\",\"text\":\"Hallo\"\x7d,\x7b\"detected_source_language\":\"EN\",\"text\":\"Welt\"\x7d]\x7d".toList })
    exampleClient (some [utf8 "Hello".toList, utf8 "World".toList]) [] (utf8 "DE".toList) []
    (translateRequest exampleClient (some [utf8 "Hello".toList, utf8 "World".toList]) []
      (utf8 "DE".toList) [])
    { Status := "200 OK".toList, StatusCode := 200,
      Body := "\x7b\"translations\":[\x7b\"detected_source_language\":\"EN\",\"text\":\"Hallo\"\x7d,\x7b\"detected_source_language\":\"EN\",\"text\":\"Welt\"\x7d]\x7d".toList }
    [JSON.object [("detected_source_language".toList, JSON.string "EN".toList),
                  ("text".toList, JSON.string "Hallo".toList)],
     JSON.object [("detected_source_language".toList, JSON.string "EN".toList),
                  ("text".toList, JSON.string "Welt".toList)]]
    [{ DetectedSourceLanguage := "EN".toList, Text := "Hallo".toList },
     { DetectedSourceLanguage := "EN".toList, Text := "Welt".toList }]
    rfl rfl
    (List.Forall₂.cons ⟨[0, 1], List.Perm.refl _, rfl⟩
      (List.Forall₂.cons ⟨[0, 1], List.Perm.refl _, rfl⟩ List.Forall₂.nil))).1

/-- C9, as stated, fails: a call with one text answered with an empty `translations` array
succeeds and returns no translation. -/
theorem Translate_result_length_counterexample :
    ¬ ∀ (env : Env) (d : Deepl) (text : List GoString)
        (sourceLang targetLang glossaryID : GoString) (result : List Translation),
        (Translate env d (some text) sourceLang targetLang glossaryID).outcome =
          Outcome.ret (some result) none →
        result.length = text.length := by
  intro h
  have := h
    (Env.answering { Status := "200 OK".toList, StatusCode := 200,
                     Body := "\x7b\"translations\":[]\x7d".toList })
    exampleClient [utf8 "Hello".toList] [] (utf8 "DE".toList) [] [] rfl
  exact absurd this (by decide)

/-- C9, amended: a successful call of `Translate` has sent its request and got a response,
and its result is what the body of that response decodes to; the input texts play no
part. The body starts with `null` or with a JSON object. The result is nil when the body
is `null`, when the object has no member whose key matches `translations` (exactly or,
failing that, without regard to case), and when the last such member is `null`. Otherwise
the last such member is an array, and the result has one `Translation` per element of that
array, in the order of the array: the i-th result is the i-th element stored into a
`Translation` value, which is the zero value when the body has one member that matches
`translations`. -/
theorem Translate_result_from_response (env : Env) (d : Deepl) (text : Slice GoString)
    (sourceLang targetLang glossaryID : GoString) (result : Slice Translation)
    (hret : (Translate env d text sourceLang targetLang glossaryID).outcome =
      Outcome.ret result none) :
    ∃ (req : Request) (resp : Response) (v : JSON),
      (Translate env d text sourceLang targetLang glossaryID).exchanges =
        [(req, (some resp, none))] ∧
      TranslationResponse.Decode resp.Body TranslationResponse.zero =
        Except.ok { Translations := result } ∧
      readValue resp.Body = Except.ok v ∧
      (v = JSON.null ∨ ∃ ms, v = JSON.object ms) ∧
      ((translationsValues v).getLast? = none → result = none) ∧
      (∀ w, (translationsValues v).getLast? = some w →
        (w = JSON.null ∧ result = none) ∨
        ∃ elems xs, w = JSON.array elems ∧ result = some xs ∧ xs.length = elems.length ∧
          List.Forall₂ (fun e x => ∃ prev, Translation.store e prev = Except.ok x) elems xs ∧
          ((translationsValues v).length = 1 →
            List.Forall₂ (fun e x => Translation.store e Translation.zero = Except.ok x)
              elems xs)) := by
  obtain ⟨resp, hex, hd⟩ :=
    Translate_success env d text sourceLang targetLang glossaryID result hret
  obtain ⟨v, hv, hrest⟩ := Decode_result resp.Body result hd
  exact ⟨_, resp, v, hex, hd, hv, hrest⟩

/-- C9, amended, at a concrete input: one text sent, two translations returned. -/
theorem Translate_result_from_response_witness :
    (Translate
        (Env.answering
          { Status := "200 OK".toList, StatusCode := 200,
            Body := "\x7b\"translations\":[\x7b\"detected_source_language\":\"EN\",\"text\":\"Hallo\"\x7d,\x7b\"text\":\"Welt\"\x7d]\x7d".toList })
        exampleClient (some [utf8 "Hello".toList]) [] (utf8 "DE".toList) []).outcome =
      Outcome.ret
        (some [{ DetectedSourceLanguage := "EN".toList, Text := "Hallo".toList },
               { DetectedSourceLanguage := [], Text := "Welt".toList }]) none ∧
    ∃ (req : Request) (resp : Response) (v : JSON),
      (Translate
        (Env.answering
          { Status := "200 OK".toList, StatusCode := 200,
            Body := "\x7b\"translations\":[\x7b\"detected_source_language\":\"EN\",\"text\":\"Hallo\"\x7d,\x7b\"text\":\"Welt\"\x7d]\x7d".toList })
        exampleClient (some [utf8 "Hello".toList]) [] (utf8 "DE".toList) []).exchanges =
        [(req, (some resp, none))] ∧
      TranslationResponse.Decode resp.Body TranslationResponse.zero =
        Except.ok
          { Translations :=
              some [{ DetectedSourceLanguage := "EN".toList, Text := "Hallo".toList },
                    { DetectedSourceLanguage := [], Text := "Welt".toList }] } ∧
      readValue resp.Body = Except.ok v ∧
      (v = JSON.null ∨ ∃ ms, v = JSON.object ms) ∧
      ((translationsValues v).getLast? = none →
        some [({ DetectedSourceLanguage := "EN".toList, Text := "Hallo".toList } : Translation),
              { DetectedSourceLanguage := [], Text := "Welt".toList }] = none) ∧
      (∀ w, (translationsValues v).getLast? = some w →
        (w = JSON.null ∧
          some [({ DetectedSourceLanguage := "EN".toList, Text := "Hallo".toList } : Translation),
                { DetectedSourceLanguage := [], Text := "Welt".toList }] = none) ∨
        ∃ elems xs, w = JSON.array elems ∧
          some [({ DetectedSourceLanguage := "EN".toList, Text := "Hallo".toList } : Translation),
                { DetectedSourceLanguage := [], Text := "Welt".toList }] = some xs ∧
          xs.length = elems.length ∧
          List.Forall₂ (fun e x => ∃ prev, Translation.store e prev = Except.ok x) elems xs ∧
          ((translationsValues v).length = 1 →
            List.Forall₂ (fun e x => Translation.store e Translation.zero = Except.ok x)
              elems xs)) :=
  ⟨rfl,
    Translate_result_from_response
      (Env.answering
        { Status := "200 OK".toList, StatusCode := 200,
          Body := "\x7b\"translations\":[\x7b\"detected_source_language\":\"EN\",\"text\":\"Hallo\"\x7d,\x7b\"text\":\"Welt\"\x7d]\x7d".toList })
      exampleClient (some [utf8 "Hello".toList]) [] (utf8 "DE".toList) []
      (some [{ DetectedSourceLanguage := "EN".toList, Text := "Hallo".toList },
             { DetectedSourceLanguage := [], Text := "Welt".toList }])
      rfl⟩

/-- C7: when the transport answers the request of `CreateGlossary` with a response whose
body is the JSON object with the members `glossary_id`, `name`, `ready`, `source_lang`,
`target_lang`, `creation_time` and `entry_count` of a glossary `g`, in any order,
`CreateGlossary` returns `g`, equal in every field, and no error. The JSON text Go's
encoder writes for `g` is such a body. -/
theorem CreateGlossary_roundtrip (env : Env) (d : Deepl) (name sourceLang targetLang : GoString)
    (entriesTSV : Reader) (req : Request) (resp : Response) (g : Glossary) (order : List Nat)
    (hlo : -(2 ^ 63 : Int) ≤ g.EntryCount) (hhi : g.EntryCount < 2 ^ 63)
    (horder : order.Perm [0, 1, 2, 3, 4, 5, 6])
    (hex : (CreateGlossary env d name sourceLang targetLang entriesTSV).exchanges =
      [(req, (some resp, none))])
    (hbody : readValue resp.Body = Except.ok (JSON.object (order.map g.member))) :
    (CreateGlossary env d name sourceLang targetLang entriesTSV).outcome =
      Outcome.ret (some g) none ∧
    readValue g.Marshal = Except.ok (JSON.object ([0, 1, 2, 3, 4, 5, 6].map g.member)) := by
  obtain ⟨hr, hp, _, hdo⟩ :=
    CreateGlossary_exchange env d name sourceLang targetLang entriesTSV req _ hex
  refine ⟨?_, readValue_Glossary g⟩
  rw [CreateGlossary_of_url env d name sourceLang targetLang entriesTSV hr hp]
  simp only [hdo, Glossary.Decode, hbody, storeMembers_Glossary g _ hlo hhi order horder]

/-- C7 at a concrete response with every field populated. -/
theorem CreateGlossary_roundtrip_witness :
    (CreateGlossary
        (Env.answering
          { Status := "201 Created".toList, StatusCode := 201,
            Body := "\x7b\"glossary_id\":\"def3a26b\",\"name\":\"My Glossary\",\"ready\":true,\"source_lang\":\"en\",\"target_lang\":\"de\",\"creation_time\":\"2021-08-03T14:16:18.329Z\",\"entry_count\":2\x7d".toList })
        exampleClient (utf8 "My Glossary".toList) (utf8 "en".toList) (utf8 "de".toList)
        { data := utf8 "hello\tHallo\r\nworld\tWelt\r\n".toList, err := none }).outcome =
      Outcome.ret
        (some { ID := "def3a26b".toList, Name := "My Glossary".toList, Ready := true,
                SourceLang := "en".toList, TargetLang := "de".toList,
                CreationTime := "2021-08-03T14:16:18.329Z".toList, EntryCount := 2 }) none :=
  (CreateGlossary_roundtrip
    (Env.answering
      { Status := "201 Created".toList, StatusCode := 201,
        Body := "\x7b\"glossary_id\":\"def3a26b\",\"name\":\"My Glossary\",\"ready\":true,\"source_lang\":\"en\",\"target_lang\":\"de\",\"creation_time\":\"2021-08-03T14:16:18.329Z\",\"entry_count\":2\x7d".toList })
    exampleClient (utf8 "My Glossary".toList) (utf8 "en".toList) (utf8 "de".toList)
    { data := utf8 "hello\tHallo\r\nworld\tWelt\r\n".toList, err := none }
    (createGlossaryRequest exampleClient (utf8 "My Glossary".toList) (utf8 "en".toList)
      (utf8 "de".toList) (utf8 "hello\tHallo\r\nworld\tWelt\r\n".toList))
    { Status := "201 Created".toList, StatusCode := 201,
      Body := "\x7b\"glossary_id\":\"def3a26b\",\"name\":\"My Glossary\",\"ready\":true,\"source_lang\":\"en\",\"target_lang\":\"de\",\"creation_time\":\"2021-08-03T14:16:18.329Z\",\"entry_count\":2\x7d".toList }
    { ID := "def3a26b".toList, Name := "My Glossary".toList, Ready := true,
      SourceLang := "en".toList, TargetLang := "de".toList,
      CreationTime := "2021-08-03T14:16:18.329Z".toList, EntryCount := 2 }
    [0, 1, 2, 3, 4, 5, 6]
    (by norm_num) (by norm_num) (List.Perm.refl _) rfl rfl).1

/-- C8: whenever the transport answers the request of `GetGlossaries` with a response and
no error, that request is a `GET` to `baseURL` followed by `/glossaries` whose
`Authorization` header is `DeepL-Auth-Key ` followed by `apiKey`, and `GetGlossaries`
returns the empty string and no error, whatever the response holds. -/
theorem GetGlossaries_ignores_response (env : Env) (d : Deepl) (req : Request)
    (resp : Response)
    (h : (GetGlossaries env d).exchanges = [(req, (some resp, none))]) :
    req.Method = "GET".toList ∧
    req.URL = d.baseURL ++ "/glossaries".toList ∧
    req.headerValue "Authorization".toList = some ("DeepL-Auth-Key ".toList ++ d.apiKey) ∧
    req.Body = none ∧
    (GetGlossaries env d).outcome = Outcome.ret [] none := by
  obtain ⟨hp, hreq, hdo⟩ := GetGlossaries_exchange env d req _ h
  subst hreq
  refine ⟨rfl, rfl, ?_, rfl, ?_⟩
  · simp [Request.headerValue, getGlossariesRequest, Request.setHeader]
  · rw [GetGlossaries_of_url env d hp]
    simp only [hdo]

/-- C8 at a concrete exchange: the server answers with a status and a body that are not
looked at. -/
theorem GetGlossaries_ignores_response_witness :
    (GetGlossaries
        (Env.answering { Status := "500 Internal Server Error".toList, StatusCode := 500,
                         Body := "[1,2,3]".toList })
        exampleClient).exchanges =
      [({ Method := "GET".toList, URL := "http://x/glossaries".toList,
          Header := [("Authorization".toList, "DeepL-Auth-Key key".toList)], Body := none },
        (some { Status := "500 Internal Server Error".toList, StatusCode := 500,
                Body := "[1,2,3]".toList }, none))] ∧
    (GetGlossaries
        (Env.answering { Status := "500 Internal Server Error".toList, StatusCode := 500,
                         Body := "[1,2,3]".toList })
        exampleClient).outcome = Outcome.ret [] none :=
  ⟨rfl,
    (GetGlossaries_ignores_response
      (Env.answering { Status := "500 Internal Server Error".toList, StatusCode := 500,
                       Body := "[1,2,3]".toList })
      exampleClient
      { Method := "GET".toList, URL := "http://x/glossaries".toList,
        Header := [("Authorization".toList, "DeepL-Auth-Key key".toList)], Body := none }
      { Status := "500 Internal Server Error".toList, StatusCode := 500,
        Body := "[1,2,3]".toList } rfl).2.2.2.2⟩

/-- C10: `Translate` and `CreateGlossary` do not look at the status. Replacing the status
of the response, with the body kept, changes the result of neither; a response of any
status whose body is an object with an empty `translations` array is returned as success;
and on a response, with the stream read to its end, the result is an error exactly when
decoding the body is. -/
theorem status_not_inspected (env : Env) (d : Deepl) (text : Slice GoString)
    (sourceLang targetLang glossaryID name : GoString) (entriesTSV : Reader)
    (status : Str) (code : Int) (resp : Response) :
    (Translate (env.withStatus status code) d text sourceLang targetLang glossaryID).outcome =
      (Translate env d text sourceLang targetLang glossaryID).outcome ∧
    (CreateGlossary (env.withStatus status code) d name sourceLang targetLang entriesTSV).outcome =
      (CreateGlossary env d name sourceLang targetLang entriesTSV).outcome ∧
    (Translate
        (Env.answering { Status := status, StatusCode := code,
                         Body := "\x7b\"translations\":[]\x7d".toList })
        d text sourceLang targetLang glossaryID).outcome = Outcome.ret (some []) none ∧
    (Translate (Env.answering resp) d text sourceLang targetLang glossaryID).outcome =
      (match TranslationResponse.Decode resp.Body TranslationResponse.zero with
       | Except.error err => Outcome.ret none (some err)
       | Except.ok responseData => Outcome.ret responseData.Translations none) ∧
    (CreateGlossary (Env.answering resp) d name sourceLang targetLang
        { data := entriesTSV.data, err := none }).outcome =
      (match Glossary.Decode resp.Body Glossary.zero with
       | Except.error err => Outcome.ret none (some err)
       | Except.ok createdGlossary => Outcome.ret (some createdGlossary) none) := by
  refine ⟨?_, ?_, ?_, ?_, ?_⟩
  · cases hp : env.parseURL (d.baseURL ++ "/translate".toList) with
    | some e =>
      rw [Translate_of_urlError _ d text sourceLang targetLang glossaryID e (by exact hp),
        Translate_of_urlError env d text sourceLang targetLang glossaryID e hp]
    | none =>
      rw [Translate_of_url _ d text sourceLang targetLang glossaryID (by exact hp),
        Translate_of_url env d text sourceLang targetLang glossaryID hp]
      simp only [Env.withStatus]
      generalize env.Do _ = ans
      obtain ⟨r, e⟩ := ans
      cases e <;> cases r <;> rfl
  · cases hr : entriesTSV.err with
    | some e =>
      rw [CreateGlossary_of_readError _ d name sourceLang targetLang entriesTSV e hr,
        CreateGlossary_of_readError env d name sourceLang targetLang entriesTSV e hr]
    | none =>
      cases hp : env.parseURL (d.baseURL ++ "/glossaries".toList) with
      | some e =>
        rw [CreateGlossary_of_urlError _ d name sourceLang targetLang entriesTSV e hr
            (by exact hp),
          CreateGlossary_of_urlError env d name sourceLang targetLang entriesTSV e hr hp]
      | none =>
        rw [CreateGlossary_of_url _ d name sourceLang targetLang entriesTSV hr (by exact hp),
          CreateGlossary_of_url env d name sourceLang targetLang entriesTSV hr hp]
        simp only [Env.withStatus]
        generalize env.Do _ = ans
        obtain ⟨r, e⟩ := ans
        cases e <;> cases r <;> rfl
  · rw [Translate_of_url _ d text sourceLang targetLang glossaryID rfl]
    rfl
  · rw [Translate_of_url _ d text sourceLang targetLang glossaryID rfl]
    rfl
  · rw [CreateGlossary_of_url _ d name sourceLang targetLang _ rfl rfl]
    rfl

end DeepL
